import Mathlib

/-!
Verification development for the population-enrichment pipeline of the
Travliaq-Country-Scrapper repository (`src/migration/populate_city_population.py`).

Modelling conventions:
* Python `str` values are modelled as `List Char`.
* Python `float` values that only flow through comparisons and arithmetic
  (coordinates, distances, similarity scores, rates) are modelled as `ℚ`;
  float rounding error is outside the model.
* The external libraries `unidecode` (diacritic folding), `rapidfuzz`
  (`fuzz.ratio`) and the trigonometric `haversine_distance` are not source
  code of this repository; they are abstracted as function parameters
  (`uni`, `ratio`, `dist`).  Every theorem below is proved for arbitrary
  such parameters (or under explicitly stated assumptions on them).
* Python `int(...)` / `float(...)` string parsing is likewise abstracted as
  `parseNum` / `parseFloat` parameters returning `Option` (a `none` result
  models a raised `ValueError`).
-/

namespace PopEnrich

/-! ## Python string helpers (`str.strip`, `str.lower`, `str.split`, `" ".join`) -/

/-- Model of Python `str.strip()`: drop leading and trailing whitespace. -/
def pyStrip (l : List Char) : List Char :=
  ((l.dropWhile Char.isWhitespace).reverse.dropWhile Char.isWhitespace).reverse

/-- Model of Python `str.lower()` (ASCII part; `Char.toLower` is the identity
off the ASCII uppercase range, matching CPython on ASCII input). -/
def pyLower (l : List Char) : List Char :=
  l.map Char.toLower

/-- Model of the character loop of `normalize_name`: keep alphanumeric
characters, collapse every run of other characters into a single space.
The boolean accumulator is the Python `prev_space` flag. -/
def collapseLoop : Bool → List Char → List Char
  | _, [] => []
  | prevSpace, c :: cs =>
    if c.isAlphanum then c :: collapseLoop false cs
    else if prevSpace then collapseLoop true cs
    else ' ' :: collapseLoop true cs

/-- Model of Python `str.split()` (no separator): maximal runs of
non-whitespace characters, empty pieces dropped.  `acc` holds the current
word reversed. -/
def splitWs : List Char → List Char → List (List Char)
  | [], acc => if acc = [] then [] else [acc.reverse]
  | c :: cs, acc =>
    if c.isWhitespace then
      if acc = [] then splitWs cs [] else acc.reverse :: splitWs cs []
    else splitWs cs (c :: acc)

/-- Model of Python `" ".join(ws)`. -/
def joinSpace : List (List Char) → List Char
  | [] => []
  | [w] => w
  | w :: ws => w ++ ' ' :: joinSpace ws

/-- Model of `normalize_name` (`populate_city_population.py`, lines 162-192):
lowercase, strip, fold diacritics via the abstracted `unidecode` parameter
`uni`, keep alphanumerics, collapse separator runs, re-join single-spaced. -/
def normalize_name (uni : List Char → List Char) (name : List Char) : List Char :=
  if name = [] then []
  else
    let normalized := uni (pyLower (pyStrip name))
    joinSpace (splitWs (collapseLoop false normalized) [])

/-! ## Properties of the normalization pipeline (claim C7) -/

/-- A word of the normalized output: nonempty, all characters alphanumeric. -/
def wordOk (w : List Char) : Prop :=
  w ≠ [] ∧ ∀ c ∈ w, c.isAlphanum = true

/-- Canonical shape of a normalized name: only alphanumeric characters and
spaces, no leading space, no trailing space, no two adjacent spaces. -/
def CanonicalShape (l : List Char) : Prop :=
  (∀ c ∈ l, c.isAlphanum = true ∨ c = ' ') ∧
  l.head? ≠ some ' ' ∧
  l.getLast? ≠ some ' ' ∧
  List.Chain' (fun a b => ¬(a = ' ' ∧ b = ' ')) l

@[simp] lemma collapseLoop_nil (b : Bool) : collapseLoop b [] = [] := rfl

lemma collapseLoop_cons (b : Bool) (c : Char) (cs : List Char) :
    collapseLoop b (c :: cs) =
      if c.isAlphanum then c :: collapseLoop false cs
      else if b then collapseLoop true cs else ' ' :: collapseLoop true cs := by
  cases b <;> rfl

lemma not_whitespace_of_isAlphanum {c : Char} (h : c.isAlphanum = true) :
    c.isWhitespace = false := by
  cases hw : c.isWhitespace with
  | false => rfl
  | true =>
    exfalso
    simp only [Char.isWhitespace, Bool.or_eq_true, decide_eq_true_eq] at hw
    rcases hw with ((h1 | h1) | h1) | h1 <;> subst h1 <;> simp at h

lemma ne_space_of_isAlphanum {c : Char} (h : c.isAlphanum = true) : c ≠ ' ' := by
  intro he
  subst he
  simp at h

lemma mem_collapseLoop {c : Char} :
    ∀ (b : Bool) (l : List Char), c ∈ collapseLoop b l → c = ' ' ∨ c ∈ l := by
  intro b l
  induction l generalizing b with
  | nil => simp [collapseLoop]
  | cons c0 cs ih =>
    intro hm
    unfold collapseLoop at hm
    split at hm
    · rcases List.mem_cons.1 hm with h | h
      · exact Or.inr (h ▸ List.mem_cons_self _ _)
      · rcases ih false h with h2 | h2
        · exact Or.inl h2
        · exact Or.inr (List.mem_cons_of_mem _ h2)
    · split at hm
      · rcases ih true hm with h2 | h2
        · exact Or.inl h2
        · exact Or.inr (List.mem_cons_of_mem _ h2)
      · rcases List.mem_cons.1 hm with h | h
        · exact Or.inl h
        · rcases ih true h with h2 | h2
          · exact Or.inl h2
          · exact Or.inr (List.mem_cons_of_mem _ h2)

lemma collapseLoop_chars {c : Char} :
    ∀ (b : Bool) (l : List Char), c ∈ collapseLoop b l → c.isAlphanum = true ∨ c = ' ' := by
  intro b l
  induction l generalizing b with
  | nil => simp [collapseLoop]
  | cons c0 cs ih =>
    intro hm
    unfold collapseLoop at hm
    split at hm
    · rcases List.mem_cons.1 hm with h | h
      · subst h; left; assumption
      · exact ih false h
    · split at hm
      · exact ih true hm
      · rcases List.mem_cons.1 hm with h | h
        · exact Or.inr h
        · exact ih true h

lemma splitWs_nil (acc : List Char) :
    splitWs [] acc = if acc = [] then [] else [acc.reverse] := rfl

lemma splitWs_cons (c : Char) (cs acc : List Char) :
    splitWs (c :: cs) acc =
      if c.isWhitespace then
        (if acc = [] then splitWs cs [] else acc.reverse :: splitWs cs [])
      else splitWs cs (c :: acc) := rfl

lemma splitWs_spec :
    ∀ (l acc : List Char), (∀ c ∈ acc, c.isWhitespace = false) →
      ∀ w ∈ splitWs l acc, w ≠ [] ∧ ∀ c ∈ w, (c ∈ l ∨ c ∈ acc) ∧ c.isWhitespace = false := by
  intro l
  induction l with
  | nil =>
    intro acc hacc w hw
    unfold splitWs at hw
    split at hw
    · simp at hw
    · next hne =>
      rcases List.mem_singleton.1 hw with rfl
      refine ⟨by simpa using hne, ?_⟩
      intro c hc
      rw [List.mem_reverse] at hc
      exact ⟨Or.inr hc, hacc c hc⟩
  | cons c0 cs ih =>
    intro acc hacc w hw
    unfold splitWs at hw
    split at hw
    · split at hw
      · rcases ih [] (by simp) w hw with ⟨hne, hall⟩
        refine ⟨hne, fun c hc => ?_⟩
        rcases hall c hc with ⟨hm, hws⟩
        rcases hm with hm | hm
        · exact ⟨Or.inl (List.mem_cons_of_mem _ hm), hws⟩
        · simp at hm
      · rcases List.mem_cons.1 hw with rfl | hw2
        · next hne =>
          refine ⟨by simpa using hne, ?_⟩
          intro c hc
          rw [List.mem_reverse] at hc
          exact ⟨Or.inr hc, hacc c hc⟩
        · rcases ih [] (by simp) w hw2 with ⟨hne, hall⟩
          refine ⟨hne, fun c hc => ?_⟩
          rcases hall c hc with ⟨hm, hws⟩
          rcases hm with hm | hm
          · exact ⟨Or.inl (List.mem_cons_of_mem _ hm), hws⟩
          · simp at hm
    · next hnw =>
      have hc0 : c0.isWhitespace = false := by
        cases h : c0.isWhitespace
        · rfl
        · exact absurd h hnw
      rcases ih (c0 :: acc)
          (by intro c hc; rcases List.mem_cons.1 hc with rfl | hc2
              · exact hc0
              · exact hacc c hc2) w hw with ⟨hne, hall⟩
      refine ⟨hne, fun c hc => ?_⟩
      rcases hall c hc with ⟨hm, hws⟩
      rcases hm with hm | hm
      · exact ⟨Or.inl (List.mem_cons_of_mem _ hm), hws⟩
      · rcases List.mem_cons.1 hm with rfl | hm2
        · exact ⟨Or.inl (List.mem_cons_self _ _), hws⟩
        · exact ⟨Or.inr hm2, hws⟩

@[simp] lemma joinSpace_nil : joinSpace [] = [] := rfl

@[simp] lemma joinSpace_single (w : List Char) : joinSpace [w] = w := rfl

@[simp] lemma joinSpace_cons_cons (w w2 : List Char) (ws : List (List Char)) :
    joinSpace (w :: w2 :: ws) = w ++ ' ' :: joinSpace (w2 :: ws) := rfl

lemma mem_joinSpace {c : Char} :
    ∀ ws : List (List Char), c ∈ joinSpace ws → c = ' ' ∨ ∃ w ∈ ws, c ∈ w := by
  intro ws
  induction ws with
  | nil => simp
  | cons w ws ih =>
    intro hm
    cases ws with
    | nil =>
      simp only [joinSpace_single] at hm
      exact Or.inr ⟨w, List.mem_cons_self _ _, hm⟩
    | cons w2 ws2 =>
      rw [joinSpace_cons_cons] at hm
      rcases List.mem_append.1 hm with hm | hm
      · exact Or.inr ⟨w, List.mem_cons_self _ _, hm⟩
      · rcases List.mem_cons.1 hm with rfl | hm2
        · exact Or.inl rfl
        · rcases ih hm2 with h | ⟨w3, hw3, hc3⟩
          · exact Or.inl h
          · exact Or.inr ⟨w3, List.mem_cons_of_mem _ hw3, hc3⟩

lemma joinSpace_cons_ne_nil {w : List Char} (hw : w ≠ []) (ws : List (List Char)) :
    joinSpace (w :: ws) ≠ [] := by
  cases ws with
  | nil => simpa using hw
  | cons w2 ws2 =>
    rw [joinSpace_cons_cons]
    simp

lemma mem_of_getLast?_eq : ∀ {l : List Char} {c : Char}, l.getLast? = some c → c ∈ l := by
  intro l
  induction l with
  | nil => intro c h; simp at h
  | cons a t ih =>
    intro c h
    cases t with
    | nil =>
      simp only [List.getLast?_singleton, Option.some.injEq] at h
      subst h; exact List.mem_cons_self _ _
    | cons b t2 =>
      rw [List.getLast?_cons_cons] at h
      exact List.mem_cons_of_mem _ (ih h)

lemma chain'_of_all_alnum {w : List Char} (h : ∀ c ∈ w, c.isAlphanum = true) :
    List.Chain' (fun a b => ¬(a = ' ' ∧ b = ' ')) w := by
  induction w with
  | nil => simp
  | cons c cs ih =>
    rw [List.chain'_cons']
    refine ⟨fun b _ hab => ?_, ih fun c2 hc2 => h c2 (List.mem_cons_of_mem _ hc2)⟩
    exact ne_space_of_isAlphanum (h c (List.mem_cons_self _ _)) hab.1

lemma joinSpace_canonical :
    ∀ ws : List (List Char), (∀ w ∈ ws, wordOk w) → CanonicalShape (joinSpace ws) := by
  intro ws
  induction ws with
  | nil => exact fun _ => ⟨by simp, by simp, by simp, by simp⟩
  | cons w ws ih =>
    intro hws
    rcases hws w (List.mem_cons_self _ _) with ⟨hwne, hwall⟩
    cases ws with
    | nil =>
      rw [joinSpace_single]
      refine ⟨fun c hc => Or.inl (hwall c hc), ?_, ?_, chain'_of_all_alnum hwall⟩
      · intro h
        cases w with
        | nil => simp at h
        | cons a t =>
          simp only [List.head?_cons, Option.some.injEq] at h
          exact ne_space_of_isAlphanum (hwall a (List.mem_cons_self _ _)) h
      · intro h
        exact ne_space_of_isAlphanum (hwall _ (mem_of_getLast?_eq h)) rfl
    | cons w2 ws2 =>
      have hws2 : ∀ u ∈ w2 :: ws2, wordOk u := fun u hu => hws u (List.mem_cons_of_mem _ hu)
      rcases ih hws2 with ⟨hchars, hhead, hlast, hchain⟩
      rcases hws2 w2 (List.mem_cons_self _ _) with ⟨hw2ne, hw2all⟩
      have hJne : joinSpace (w2 :: ws2) ≠ [] := joinSpace_cons_ne_nil hw2ne ws2
      rw [joinSpace_cons_cons]
      refine ⟨?_, ?_, ?_, ?_⟩
      · intro c hc
        rcases List.mem_append.1 hc with hc | hc
        · exact Or.inl (hwall c hc)
        · rcases List.mem_cons.1 hc with rfl | hc2
          · exact Or.inr rfl
          · exact hchars c hc2
      · cases w with
        | nil => exact absurd rfl hwne
        | cons a t =>
          rw [List.cons_append, List.head?_cons]
          intro h
          simp only [Option.some.injEq] at h
          exact ne_space_of_isAlphanum (hwall a (List.mem_cons_self _ _)) h
      · rw [List.getLast?_append_cons]
        cases hJ : joinSpace (w2 :: ws2) with
        | nil => exact absurd hJ hJne
        | cons j js =>
          rw [List.getLast?_cons_cons]
          rw [hJ] at hlast
          exact hlast
      · rw [List.chain'_append]
        refine ⟨chain'_of_all_alnum hwall, ?_, ?_⟩
        · rw [List.chain'_cons']
          refine ⟨?_, hchain⟩
          intro y hy hcon
          cases hJ : joinSpace (w2 :: ws2) with
          | nil => exact absurd hJ hJne
          | cons j js =>
            rw [hJ] at hy
            simp only [List.head?_cons, Option.mem_def, Option.some.injEq] at hy
            subst hy
            have hj : j ∈ joinSpace (w2 :: ws2) := by
              rw [hJ]; exact List.mem_cons_self _ _
            rcases mem_joinSpace _ hj with hsp | ⟨w3, hw3, hjw3⟩
            · rw [hJ] at hhead
              simp only [List.head?_cons] at hhead
              exact hhead (by rw [hsp])
            · rcases hws2 w3 hw3 with ⟨_, hall3⟩
              exact ne_space_of_isAlphanum (hall3 j hjw3) hcon.2
        · intro x hx y hy hcon
          have hxw : x ∈ w := mem_of_getLast?_eq (Option.mem_def.1 hx)
          exact ne_space_of_isAlphanum (hwall x hxw) hcon.1

lemma dropWhile_eq_self_of_head {p : Char → Bool} {l : List Char}
    (h : ∀ c, l.head? = some c → p c = false) : l.dropWhile p = l := by
  cases l with
  | nil => rfl
  | cons a t =>
    rw [List.dropWhile_cons, h a rfl]
    simp

lemma pyStrip_eq_self {l : List Char} (hc : CanonicalShape l) : pyStrip l = l := by
  rcases hc with ⟨hchars, hhead, hlast, _⟩
  have hforward : l.dropWhile Char.isWhitespace = l := by
    apply dropWhile_eq_self_of_head
    intro c hc2
    have hm : c ∈ l := by
      cases l with
      | nil => simp at hc2
      | cons a t =>
        simp only [List.head?_cons, Option.some.injEq] at hc2
        exact hc2 ▸ List.mem_cons_self _ _
    rcases hchars c hm with ha | ha
    · exact not_whitespace_of_isAlphanum ha
    · exact absurd (hc2 ▸ congrArg some ha) hhead
  have hback : l.reverse.dropWhile Char.isWhitespace = l.reverse := by
    apply dropWhile_eq_self_of_head
    intro c hc2
    rw [List.head?_reverse] at hc2
    have hm : c ∈ l := mem_of_getLast?_eq hc2
    rcases hchars c hm with ha | ha
    · exact not_whitespace_of_isAlphanum ha
    · exact absurd (hc2 ▸ congrArg some ha) hlast
  rw [pyStrip, hforward, hback, List.reverse_reverse]

lemma pyLower_eq_self {l : List Char} (h : ∀ c ∈ l, c.toLower = c) : pyLower l = l := by
  induction l with
  | nil => rfl
  | cons a t ih =>
    rw [pyLower, List.map_cons, h a (List.mem_cons_self _ _)]
    rw [pyLower] at ih
    rw [ih fun c hc => h c (List.mem_cons_of_mem _ hc)]

lemma collapseLoop_append_word :
    ∀ (w : List Char), w ≠ [] → (∀ c ∈ w, c.isAlphanum = true) → ∀ (b : Bool) (rest : List Char),
      collapseLoop b (w ++ rest) = w ++ collapseLoop false rest := by
  intro w
  induction w with
  | nil => intro h; exact absurd rfl h
  | cons c w2 ih =>
    intro _ hall b rest
    rw [List.cons_append, collapseLoop_cons, if_pos (hall c (List.mem_cons_self _ _))]
    cases hw2 : w2 with
    | nil => simp
    | cons d w3 =>
      rw [← hw2, ih (by rw [hw2]; simp) (fun c2 hc2 => hall c2 (List.mem_cons_of_mem _ hc2)) false rest]
      rw [List.cons_append]

lemma collapseLoop_joinSpace :
    ∀ (ws : List (List Char)) (b : Bool), (∀ w ∈ ws, wordOk w) → ws ≠ [] →
      collapseLoop b (joinSpace ws) = joinSpace ws := by
  intro ws
  induction ws with
  | nil => intro b _ h; exact absurd rfl h
  | cons w ws2 ih =>
    intro b hws _
    rcases hws w (List.mem_cons_self _ _) with ⟨hwne, hwall⟩
    cases ws2 with
    | nil =>
      rw [joinSpace_single]
      have := collapseLoop_append_word w hwne hwall b []
      simpa using this
    | cons w2 ws3 =>
      rw [joinSpace_cons_cons, collapseLoop_append_word w hwne hwall b _]
      have hsp : collapseLoop false (' ' :: joinSpace (w2 :: ws3)) =
          ' ' :: collapseLoop true (joinSpace (w2 :: ws3)) := by
        rw [collapseLoop_cons, if_neg (by decide), if_neg (by decide)]
      rw [hsp, ih true (fun u hu => hws u (List.mem_cons_of_mem _ hu)) (by simp)]

lemma splitWs_append_word :
    ∀ (w : List Char), (∀ c ∈ w, c.isAlphanum = true) → ∀ (rest acc : List Char),
      splitWs (w ++ rest) acc = splitWs rest (w.reverse ++ acc) := by
  intro w
  induction w with
  | nil => intro _ rest acc; simp
  | cons c w2 ih =>
    intro hall rest acc
    rw [List.cons_append, splitWs_cons,
      if_neg (by rw [not_whitespace_of_isAlphanum (hall c (List.mem_cons_self _ _))]; simp),
      ih (fun c2 hc2 => hall c2 (List.mem_cons_of_mem _ hc2)) rest (c :: acc),
      List.reverse_cons, List.append_assoc, List.singleton_append]

lemma splitWs_joinSpace :
    ∀ ws : List (List Char), (∀ w ∈ ws, wordOk w) → splitWs (joinSpace ws) [] = ws := by
  intro ws
  induction ws with
  | nil => intro _; rfl
  | cons w ws2 ih =>
    intro hws
    rcases hws w (List.mem_cons_self _ _) with ⟨hwne, hwall⟩
    cases ws2 with
    | nil =>
      rw [joinSpace_single]
      have h1 := splitWs_append_word w hwall [] []
      rw [List.append_nil, List.append_nil] at h1
      rw [h1, splitWs_nil, if_neg (by simpa using hwne), List.reverse_reverse]
    | cons w2 ws3 =>
      rw [joinSpace_cons_cons, splitWs_append_word w hwall _ []]
      rw [List.append_nil]
      have hsp : splitWs (' ' :: joinSpace (w2 :: ws3)) w.reverse =
          w.reverse.reverse :: splitWs (joinSpace (w2 :: ws3)) [] := by
        rw [splitWs_cons, if_pos (by decide), if_neg (by simpa using hwne)]
      rw [hsp, List.reverse_reverse, ih fun u hu => hws u (List.mem_cons_of_mem _ hu)]

/-- Concrete fragment of the real `unidecode` transliteration table: its
documented mappings of U+5317 to "Bei " and U+4EB0 to "Jing " (note the
CAPITALIZED output), the identity on ASCII codepoints, and the empty string
for other unmapped codepoints. -/
def unidecodeChar (c : Char) : List Char :=
  if c = '北' then "Bei ".toList
  else if c = '亰' then "Jing ".toList
  else if c.toNat < 128 then [c]
  else []

/-- The `unidecode` library transliterates a string characterwise. -/
def unidecodeStub (l : List Char) : List Char := l.flatMap unidecodeChar

/-- C7 counterexample: `normalize_name` is NOT idempotent for every input
string, and does not always lowercase.  The code lowercases BEFORE folding
diacritics (`unidecode(name.strip().lower())`), and `unidecode` emits
capitalized transliterations for many non-Latin characters (its own flagship
example `unidecode("北亰") == "Bei Jing "`).  On that input the first
normalization returns "Bei Jing" — with uppercase letters — and normalizing
again yields "bei jing", a different string. -/
theorem normalize_name_not_idempotent_counterexample :
    normalize_name unidecodeStub "北亰".toList = "Bei Jing".toList ∧
    normalize_name unidecodeStub (normalize_name unidecodeStub "北亰".toList) =
      "bei jing".toList ∧
    normalize_name unidecodeStub (normalize_name unidecodeStub "北亰".toList) ≠
      normalize_name unidecodeStub "北亰".toList := by decide

/-- C7 (amended): `normalize_name` is pure (it is a function), and for EVERY
diacritic folder `uni` its output consists only of alphanumeric characters and
single separating spaces with no leading, trailing, or duplicate spaces.  It
is idempotent, with lowercase output, PROVIDED the folder emits only
`Char.toLower`-fixed characters and is the identity on already-folded strings
— true of `unidecode` on accented Latin input, but violated by its
capitalized transliterations (see the counterexample), on which the code is
not idempotent and not lowercase. -/
theorem normalize_name_idempotent
    (uni : List Char → List Char) (x : List Char) :
    CanonicalShape (normalize_name uni x) ∧
    ((∀ s : List Char, ∀ c ∈ uni s, Char.toLower c = c) →
      (∀ l : List Char,
        (∀ c ∈ l, (c.isAlphanum = true ∨ c = ' ') ∧ Char.toLower c = c) → uni l = l) →
      normalize_name uni (normalize_name uni x) = normalize_name uni x ∧
        ∀ c ∈ normalize_name uni x, Char.toLower c = c) := by
  by_cases hx : x = []
  · subst hx
    have h0 : normalize_name uni [] = [] := rfl
    refine ⟨?_, fun _ _ => ⟨rfl, ?_⟩⟩
    · rw [h0]
      exact ⟨by simp, by simp, by simp, by simp⟩
    · rw [h0]
      simp
  · have hnx : normalize_name uni x =
        joinSpace (splitWs (collapseLoop false (uni (pyLower (pyStrip x)))) []) := by
      rw [normalize_name, if_neg hx]
    set s0 := uni (pyLower (pyStrip x)) with hs0
    set ws := splitWs (collapseLoop false s0) [] with hws0
    have hwords : ∀ w ∈ ws, wordOk w := by
      intro w hw
      rcases splitWs_spec (collapseLoop false s0) [] (by simp) w hw with ⟨hne, hall⟩
      refine ⟨hne, fun c hc => ?_⟩
      rcases hall c hc with ⟨hm, hnws⟩
      rcases hm with hm | hm
      · rcases collapseLoop_chars false s0 hm with ha | ha
        · exact ha
        · subst ha; simp at hnws
      · simp at hm
    have hcanon : CanonicalShape (joinSpace ws) := joinSpace_canonical ws hwords
    rw [hnx]
    refine ⟨hcanon, ?_⟩
    intro huniLower huniId
    have hlower : ∀ c ∈ joinSpace ws, Char.toLower c = c := by
      intro c hc
      rcases mem_joinSpace ws hc with rfl | ⟨w, hw, hcw⟩
      · decide
      · rcases splitWs_spec (collapseLoop false s0) [] (by simp) w hw with ⟨_, hall⟩
        rcases hall c hcw with ⟨hm, _⟩
        rcases hm with hm | hm
        · rcases mem_collapseLoop false s0 hm with rfl | hm2
          · decide
          · exact huniLower _ c hm2
        · simp at hm
    refine ⟨?_, hlower⟩
    by_cases hy : joinSpace ws = []
    · rw [hy]
      rfl
    · have hwsne : ws ≠ [] := by
        intro h
        rw [h] at hy
        exact hy rfl
      rw [normalize_name, if_neg hy]
      rw [pyStrip_eq_self hcanon, pyLower_eq_self hlower]
      rw [huniId _ fun c hc => ⟨hcanon.1 c hc, hlower c hc⟩]
      show joinSpace (splitWs (collapseLoop false (joinSpace ws)) []) = joinSpace ws
      rw [collapseLoop_joinSpace ws false hwords hwsne]
      rw [splitWs_joinSpace ws hwords]

/-- A concrete diacritic folder satisfying the two assumptions of the C7
theorem: it keeps exactly the `Char.toLower`-fixed characters. -/
def lowerFixedFilter : List Char → List Char := fun l =>
  l.filter fun c => c.toLower == c

theorem normalize_name_idempotent_witness :
    CanonicalShape (normalize_name lowerFixedFilter "  Grand--Parys 42 ".toList) ∧
    normalize_name lowerFixedFilter
        (normalize_name lowerFixedFilter "  Grand--Parys 42 ".toList) =
      normalize_name lowerFixedFilter "  Grand--Parys 42 ".toList ∧
    ∀ c ∈ normalize_name lowerFixedFilter "  Grand--Parys 42 ".toList,
      Char.toLower c = c :=
  ⟨(normalize_name_idempotent lowerFixedFilter "  Grand--Parys 42 ".toList).1,
    (normalize_name_idempotent lowerFixedFilter "  Grand--Parys 42 ".toList).2
      (fun _ c hc => by
        rcases List.mem_filter.1 hc with ⟨_, hp⟩
        exact eq_of_beq hp)
      (fun l h => List.filter_eq_self.2 fun a ha => by simp [(h a ha).2])⟩

/-! ## Data model (`CityRecord`, `GeoNamesRecord`, `MatchResult`, `Statistics`) -/

/-- Target record fetched from the database (`CityRecord` dataclass). -/
structure CityRecord where
  id : List Char
  name : List Char
  country_code : List Char
  lat : ℚ
  lon : ℚ
deriving DecidableEq

/-- Reference entry parsed from the GeoNames dataset (`GeoNamesRecord`). -/
structure GeoNamesRecord where
  name_normalized : List Char
  ascii_normalized : List Char
  lat : ℚ
  lon : ℚ
  population : ℤ
deriving DecidableEq

/-- Result of a population match (`MatchResult` dataclass). -/
structure MatchResult where
  city_id : List Char
  population : ℤ
  source : List Char
deriving DecidableEq

/-- Module constant `FUZZY_MATCH_THRESHOLD = 94`. -/
def FUZZY_MATCH_THRESHOLD : ℚ := 94

/-- Module constant `WIKIDATA_MATCH_THRESHOLD = 92`. -/
def WIKIDATA_MATCH_THRESHOLD : ℚ := 92

/-! ## Spatial grid index (`_build_spatial_index`, `_get_nearby_grid_keys`) -/

/-- Model of Python `round` (banker's rounding, round half to even) applied to
an exact rational value, as in `int(round(lat * multiplier))`. -/
def pyRound (q : ℚ) : ℤ :=
  if q - ⌊q⌋ < 1 / 2 then ⌊q⌋
  else if 1 / 2 < q - ⌊q⌋ then ⌊q⌋ + 1
  else if ⌊q⌋ % 2 = 0 then ⌊q⌋ else ⌊q⌋ + 1

/-- The grid multiplier `10 ** index_precision` with `index_precision = 1`. -/
def gridMultiplier : ℚ := 10

/-- Grid key of a reference record, as computed by `_build_spatial_index`. -/
def gridKey (r : GeoNamesRecord) : ℤ × ℤ :=
  (pyRound (r.lat * gridMultiplier), pyRound (r.lon * gridMultiplier))

/-- Model of `_get_nearby_grid_keys`: the 3x3 neighborhood of the target's
grid cell, in the iteration order of the Python double loop. -/
def getNearbyGridKeys (lat lon : ℚ) : List (ℤ × ℤ) :=
  let centerLat := pyRound (lat * gridMultiplier)
  let centerLon := pyRound (lon * gridMultiplier)
  ([-1, 0, 1] : List ℤ).flatMap fun dLat =>
    ([-1, 0, 1] : List ℤ).map fun dLon => (centerLat + dLat, centerLon + dLon)

/-- Candidates drawn from the spatial index: for each of the 9 nearby grid
keys, the records of the country bucketed under that key (the per-key buckets
of `spatial_index` hold records in dataset order, which `records.filter`
reproduces). -/
def gridCandidates (records : List GeoNamesRecord) (lat lon : ℚ) : List GeoNamesRecord :=
  (getNearbyGridKeys lat lon).flatMap fun k => records.filter fun r => gridKey r = k

/-- The candidate list scanned by `match_city`: the grid neighborhood, or all
records of the country when the neighborhood is empty. -/
def matchCandidates (records : List GeoNamesRecord) (lat lon : ℚ) : List GeoNamesRecord :=
  let c := gridCandidates records lat lon
  if c.isEmpty then records else c

/-! ## Two-phase matcher (`GeoNamesProvider.match_city`) -/

/-- Exact-name equality test of phase 1. -/
def nameMatches (q : List Char) (r : GeoNamesRecord) : Prop :=
  r.name_normalized = q ∨ r.ascii_normalized = q

instance (q : List Char) (r : GeoNamesRecord) : Decidable (nameMatches q r) := by
  unfold nameMatches
  infer_instance

/-- Comparison against the running best distance; `none` plays the role of
the initial `float("inf")`. -/
def distImproves (d : ℚ) : Option (ℚ × ℤ) → Bool
  | none => true
  | some (bd, _) => decide (d < bd)

/-- Phase 1 of `match_city` (lines 374-386): scan candidates, keeping the
nearest exact name match within the radius.  The accumulator `best` carries
`(best_exact_dist, best_exact_pop)`. -/
def exactPhase (dist : ℚ → ℚ → ℚ → ℚ → ℚ) (radius : ℚ) (q : List Char) (clat clon : ℚ) :
    List GeoNamesRecord → Option (ℚ × ℤ) → Option (ℚ × ℤ)
  | [], best => best
  | r :: rs, best =>
    if nameMatches q r then
      let d := dist clat clon r.lat r.lon
      if d ≤ radius ∧ distImproves d best then
        exactPhase dist radius q clat clon rs (some (d, r.population))
      else exactPhase dist radius q clat clon rs best
    else exactPhase dist radius q clat clon rs best

/-- Comparison against the running best fuzzy distance (`none` is `inf`). -/
def distLtOpt (d : ℚ) : Option ℚ → Bool
  | none => true
  | some bd => decide (d < bd)

/-- Phase 2 of `match_city` (lines 388-412): fuzzy scan.  A candidate scores
the maximum of the two `fuzz.ratio` calls; it is skipped when the score is
below `FUZZY_MATCH_THRESHOLD` or the distance exceeds the radius; otherwise
it replaces the running best on strictly higher score, or equal score and
strictly smaller distance. -/
def fuzzyPhase (dist : ℚ → ℚ → ℚ → ℚ → ℚ) (ratio : List Char → List Char → ℚ)
    (radius : ℚ) (q : List Char) (clat clon : ℚ) :
    List GeoNamesRecord → Option ℤ → ℚ → Option ℚ → Option ℤ
  | [], bestPop, _, _ => bestPop
  | r :: rs, bestPop, bestScore, bestDist =>
    let score := max (ratio q r.name_normalized) (ratio q r.ascii_normalized)
    if score < FUZZY_MATCH_THRESHOLD then
      fuzzyPhase dist ratio radius q clat clon rs bestPop bestScore bestDist
    else
      let d := dist clat clon r.lat r.lon
      if radius < d then
        fuzzyPhase dist ratio radius q clat clon rs bestPop bestScore bestDist
      else if bestScore < score ∨ (score = bestScore ∧ distLtOpt d bestDist) then
        fuzzyPhase dist ratio radius q clat clon rs (some r.population) score (some d)
      else fuzzyPhase dist ratio radius q clat clon rs bestPop bestScore bestDist

/-- Model of `GeoNamesProvider.match_city` (lines 343-412).  `dist` abstracts
`haversine_distance`, `ratio` abstracts `fuzz.ratio`, `uni` abstracts
`unidecode` inside `normalize_name`, `radius` is `MAX_RADIUS_KM`, and `data`
is `data_by_country` (a country code absent from the dataset maps to `[]`,
matching the falsy `dict.get` result). -/
def match_city (dist : ℚ → ℚ → ℚ → ℚ → ℚ) (ratio : List Char → List Char → ℚ)
    (uni : List Char → List Char) (radius : ℚ)
    (data : List Char → List GeoNamesRecord) (city : CityRecord) : Option ℤ :=
  let records := data city.country_code
  if records.isEmpty then none
  else
    let candidates := matchCandidates records city.lat city.lon
    let normalized_query := normalize_name uni city.name
    match exactPhase dist radius normalized_query city.lat city.lon candidates none with
    | some (_, pop) => some pop
    | none => fuzzyPhase dist ratio radius normalized_query city.lat city.lon candidates none 0 none

/-! ## Lemmas about the two-phase matcher -/

lemma distImproves_none (d : ℚ) : distImproves d none = true := rfl

lemma distImproves_some (d bd : ℚ) (p : ℤ) :
    distImproves d (some (bd, p)) = decide (d < bd) := rfl

lemma exactPhase_nil (dist : ℚ → ℚ → ℚ → ℚ → ℚ) (radius : ℚ) (q : List Char)
    (clat clon : ℚ) (best : Option (ℚ × ℤ)) :
    exactPhase dist radius q clat clon [] best = best := rfl

lemma exactPhase_cons (dist : ℚ → ℚ → ℚ → ℚ → ℚ) (radius : ℚ) (q : List Char)
    (clat clon : ℚ) (r : GeoNamesRecord) (rs : List GeoNamesRecord)
    (best : Option (ℚ × ℤ)) :
    exactPhase dist radius q clat clon (r :: rs) best =
      if nameMatches q r then
        (if dist clat clon r.lat r.lon ≤ radius ∧
            distImproves (dist clat clon r.lat r.lon) best then
          exactPhase dist radius q clat clon rs
            (some (dist clat clon r.lat r.lon, r.population))
        else exactPhase dist radius q clat clon rs best)
      else exactPhase dist radius q clat clon rs best := rfl

/-- Full characterization of the exact phase: either no candidate improves the
running best and the accumulator is returned unchanged, or the result is the
population of a nearest in-radius exact match that improves the running best. -/
lemma exactPhase_spec (dist : ℚ → ℚ → ℚ → ℚ → ℚ) (radius : ℚ) (q : List Char)
    (clat clon : ℚ) :
    ∀ (rs : List GeoNamesRecord) (best : Option (ℚ × ℤ)),
      (exactPhase dist radius q clat clon rs best = best ∧
        ∀ r ∈ rs, nameMatches q r → dist clat clon r.lat r.lon ≤ radius →
          distImproves (dist clat clon r.lat r.lon) best = false) ∨
      (∃ r ∈ rs, nameMatches q r ∧ dist clat clon r.lat r.lon ≤ radius ∧
        distImproves (dist clat clon r.lat r.lon) best = true ∧
        exactPhase dist radius q clat clon rs best =
          some (dist clat clon r.lat r.lon, r.population) ∧
        ∀ r2 ∈ rs, nameMatches q r2 → dist clat clon r2.lat r2.lon ≤ radius →
          dist clat clon r.lat r.lon ≤ dist clat clon r2.lat r2.lon) := by
  intro rs
  induction rs with
  | nil => exact fun best => Or.inl ⟨rfl, by simp⟩
  | cons r rs ih =>
    intro best
    by_cases hn : nameMatches q r
    · by_cases hcond : dist clat clon r.lat r.lon ≤ radius ∧
          distImproves (dist clat clon r.lat r.lon) best = true
      · have heq : exactPhase dist radius q clat clon (r :: rs) best =
            exactPhase dist radius q clat clon rs
              (some (dist clat clon r.lat r.lon, r.population)) := by
          rw [exactPhase_cons, if_pos hn, if_pos hcond]
        rcases ih (some (dist clat clon r.lat r.lon, r.population)) with
          ⟨heq2, hmin⟩ | ⟨r2, hr2, hn2, hd2, hi2, heq2, hmin2⟩
        · refine Or.inr ⟨r, List.mem_cons_self _ _, hn, hcond.1, hcond.2, ?_, ?_⟩
          · rw [heq, heq2]
          · intro r2 hr2 hn2 hd2
            rcases List.mem_cons.1 hr2 with rfl | hr2
            · exact le_refl _
            · have := hmin r2 hr2 hn2 hd2
              rw [distImproves_some] at this
              simpa using this
        · have hlt : dist clat clon r2.lat r2.lon < dist clat clon r.lat r.lon := by
            rw [distImproves_some] at hi2
            simpa using hi2
          refine Or.inr ⟨r2, List.mem_cons_of_mem _ hr2, hn2, hd2, ?_, ?_, ?_⟩
          · cases best with
            | none => rfl
            | some b =>
              rcases b with ⟨bd, bp⟩
              rw [distImproves_some] at hcond ⊢
              have h1 : dist clat clon r.lat r.lon < bd := by simpa using hcond.2
              simpa using lt_trans hlt h1
          · rw [heq, heq2]
          · intro r3 hr3 hn3 hd3
            rcases List.mem_cons.1 hr3 with rfl | hr3
            · exact le_of_lt hlt
            · exact hmin2 r3 hr3 hn3 hd3
      · have heq : exactPhase dist radius q clat clon (r :: rs) best =
            exactPhase dist radius q clat clon rs best := by
          rw [exactPhase_cons, if_pos hn, if_neg hcond]
        rcases ih best with ⟨heq2, hmin⟩ | ⟨r2, hr2, hn2, hd2, hi2, heq2, hmin2⟩
        · refine Or.inl ⟨by rw [heq, heq2], ?_⟩
          intro r2 hr2 hn2 hd2
          rcases List.mem_cons.1 hr2 with rfl | hr2
          · cases hb : distImproves (dist clat clon r2.lat r2.lon) best
            · rfl
            · exact absurd ⟨hd2, hb⟩ hcond
          · exact hmin r2 hr2 hn2 hd2
        · refine Or.inr ⟨r2, List.mem_cons_of_mem _ hr2, hn2, hd2, hi2, by rw [heq, heq2], ?_⟩
          intro r3 hr3 hn3 hd3
          rcases List.mem_cons.1 hr3 with rfl | hr3
          · cases best with
            | none => exact absurd ⟨hd3, distImproves_none _⟩ hcond
            | some b =>
              rcases b with ⟨bd, bp⟩
              have h1 : dist clat clon r2.lat r2.lon < bd := by
                rw [distImproves_some] at hi2
                simpa using hi2
              have h2 : ¬dist clat clon r3.lat r3.lon < bd := by
                intro hlt
                exact hcond ⟨hd3, by rw [distImproves_some]; simpa using hlt⟩
              exact le_of_lt (lt_of_lt_of_le h1 (not_lt.1 h2))
          · exact hmin2 r3 hr3 hn3 hd3
    · have heq : exactPhase dist radius q clat clon (r :: rs) best =
          exactPhase dist radius q clat clon rs best := by
        rw [exactPhase_cons, if_neg hn]
      rcases ih best with ⟨heq2, hmin⟩ | ⟨r2, hr2, hn2, hd2, hi2, heq2, hmin2⟩
      · refine Or.inl ⟨by rw [heq, heq2], ?_⟩
        intro r2 hr2 hn2 hd2
        rcases List.mem_cons.1 hr2 with rfl | hr2
        · exact absurd hn2 hn
        · exact hmin r2 hr2 hn2 hd2
      · refine Or.inr ⟨r2, List.mem_cons_of_mem _ hr2, hn2, hd2, hi2, by rw [heq, heq2], ?_⟩
        intro r3 hr3 hn3 hd3
        rcases List.mem_cons.1 hr3 with rfl | hr3
        · exact absurd hn3 hn
        · exact hmin2 r3 hr3 hn3 hd3

lemma fuzzyPhase_nil (dist : ℚ → ℚ → ℚ → ℚ → ℚ) (ratio : List Char → List Char → ℚ)
    (radius : ℚ) (q : List Char) (clat clon : ℚ) (bp : Option ℤ) (bs : ℚ) (bd : Option ℚ) :
    fuzzyPhase dist ratio radius q clat clon [] bp bs bd = bp := rfl

lemma fuzzyPhase_cons (dist : ℚ → ℚ → ℚ → ℚ → ℚ) (ratio : List Char → List Char → ℚ)
    (radius : ℚ) (q : List Char) (clat clon : ℚ) (r : GeoNamesRecord)
    (rs : List GeoNamesRecord) (bp : Option ℤ) (bs : ℚ) (bd : Option ℚ) :
    fuzzyPhase dist ratio radius q clat clon (r :: rs) bp bs bd =
      if max (ratio q r.name_normalized) (ratio q r.ascii_normalized) <
          FUZZY_MATCH_THRESHOLD then
        fuzzyPhase dist ratio radius q clat clon rs bp bs bd
      else if radius < dist clat clon r.lat r.lon then
        fuzzyPhase dist ratio radius q clat clon rs bp bs bd
      else if bs < max (ratio q r.name_normalized) (ratio q r.ascii_normalized) ∨
          (max (ratio q r.name_normalized) (ratio q r.ascii_normalized) = bs ∧
            distLtOpt (dist clat clon r.lat r.lon) bd) then
        fuzzyPhase dist ratio radius q clat clon rs (some r.population)
          (max (ratio q r.name_normalized) (ratio q r.ascii_normalized))
          (some (dist clat clon r.lat r.lon))
      else fuzzyPhase dist ratio radius q clat clon rs bp bs bd := rfl

/-- Soundness of the fuzzy phase: a returned population is either the initial
accumulator or comes from a scanned record within the radius whose score
reached the fuzzy threshold. -/
lemma fuzzyPhase_sound (dist : ℚ → ℚ → ℚ → ℚ → ℚ) (ratio : List Char → List Char → ℚ)
    (radius : ℚ) (q : List Char) (clat clon : ℚ) :
    ∀ (rs : List GeoNamesRecord) (bp : Option ℤ) (bs : ℚ) (bd : Option ℚ) (p : ℤ),
      fuzzyPhase dist ratio radius q clat clon rs bp bs bd = some p →
      bp = some p ∨ ∃ r ∈ rs, r.population = p ∧ dist clat clon r.lat r.lon ≤ radius ∧
        FUZZY_MATCH_THRESHOLD ≤ max (ratio q r.name_normalized) (ratio q r.ascii_normalized) := by
  intro rs
  induction rs with
  | nil =>
    intro bp bs bd p h
    rw [fuzzyPhase_nil] at h
    exact Or.inl h
  | cons r rs ih =>
    intro bp bs bd p h
    rw [fuzzyPhase_cons] at h
    split at h
    · rcases ih bp bs bd p h with h2 | ⟨r2, hr2, h3⟩
      · exact Or.inl h2
      · exact Or.inr ⟨r2, List.mem_cons_of_mem _ hr2, h3⟩
    · next hscore =>
      split at h
      · rcases ih bp bs bd p h with h2 | ⟨r2, hr2, h3⟩
        · exact Or.inl h2
        · exact Or.inr ⟨r2, List.mem_cons_of_mem _ hr2, h3⟩
      · next hrad =>
        split at h
        · rcases ih _ _ _ p h with h2 | ⟨r2, hr2, h3⟩
          · refine Or.inr ⟨r, List.mem_cons_self _ _, ?_, not_lt.1 hrad, not_lt.1 hscore⟩
            simpa using h2
          · exact Or.inr ⟨r2, List.mem_cons_of_mem _ hr2, h3⟩
        · rcases ih bp bs bd p h with h2 | ⟨r2, hr2, h3⟩
          · exact Or.inl h2
          · exact Or.inr ⟨r2, List.mem_cons_of_mem _ hr2, h3⟩

lemma mem_gridCandidates {r : GeoNamesRecord} {records : List GeoNamesRecord} {lat lon : ℚ}
    (h : r ∈ gridCandidates records lat lon) :
    r ∈ records ∧ gridKey r ∈ getNearbyGridKeys lat lon := by
  rcases List.mem_flatMap.1 h with ⟨k, hk, hr⟩
  rcases List.mem_filter.1 hr with ⟨hrec, hkey⟩
  refine ⟨hrec, ?_⟩
  have : gridKey r = k := by simpa using hkey
  rw [this]
  exact hk

lemma mem_matchCandidates {r : GeoNamesRecord} {records : List GeoNamesRecord} {lat lon : ℚ}
    (h : r ∈ matchCandidates records lat lon) : r ∈ records := by
  rw [matchCandidates] at h
  split at h
  · exact h
  · exact (mem_gridCandidates h).1

lemma match_city_cases (dist : ℚ → ℚ → ℚ → ℚ → ℚ) (ratio : List Char → List Char → ℚ)
    (uni : List Char → List Char) (radius : ℚ)
    (data : List Char → List GeoNamesRecord) (city : CityRecord)
    (hne : (data city.country_code).isEmpty = false) :
    match_city dist ratio uni radius data city =
      match exactPhase dist radius (normalize_name uni city.name) city.lat city.lon
          (matchCandidates (data city.country_code) city.lat city.lon) none with
      | some (_, pop) => some pop
      | none => fuzzyPhase dist ratio radius (normalize_name uni city.name)
          city.lat city.lon
          (matchCandidates (data city.country_code) city.lat city.lon) none 0 none := by
  rw [match_city]
  simp only [hne, Bool.false_eq_true, if_false]

/-- Soundness of `match_city` (both phases): any returned population belongs
to a scanned candidate lying within the configured radius. -/
lemma match_city_sound (dist : ℚ → ℚ → ℚ → ℚ → ℚ) (ratio : List Char → List Char → ℚ)
    (uni : List Char → List Char) (radius : ℚ)
    (data : List Char → List GeoNamesRecord) (city : CityRecord) (p : ℤ)
    (h : match_city dist ratio uni radius data city = some p) :
    ∃ r ∈ matchCandidates (data city.country_code) city.lat city.lon,
      r.population = p ∧ dist city.lat city.lon r.lat r.lon ≤ radius := by
  by_cases hne : (data city.country_code).isEmpty
  · rw [match_city] at h
    simp only [hne, if_true] at h
    exact absurd h (by simp)
  · rw [match_city_cases dist ratio uni radius data city (by simpa using hne)] at h
    rcases hres : exactPhase dist radius (normalize_name uni city.name) city.lat city.lon
        (matchCandidates (data city.country_code) city.lat city.lon) none with _ | ⟨d, pop⟩
    · rw [hres] at h
      rcases fuzzyPhase_sound dist ratio radius _ city.lat city.lon _ none 0 none p h with
        h2 | ⟨r, hr, hpop, hrad, _⟩
      · exact absurd h2 (by simp)
      · exact ⟨r, hr, hpop, hrad⟩
    · rw [hres] at h
      rcases exactPhase_spec dist radius (normalize_name uni city.name) city.lat city.lon
          (matchCandidates (data city.country_code) city.lat city.lon) none with
        ⟨heq, _⟩ | ⟨r, hr, _, hrad, _, heq, _⟩
      · rw [heq] at hres
        exact absurd hres (by simp)
      · rw [heq] at hres
        have hd : d = dist city.lat city.lon r.lat r.lon ∧ pop = r.population := by
          have := hres.symm
          simp only [Option.some.injEq, Prod.mk.injEq] at this
          exact this
        refine ⟨r, hr, ?_, hrad⟩
        have hp : some pop = some p := h
        simp only [Option.some.injEq] at hp
        rw [hd.2] at hp
        exact hp

lemma gridCandidates_nil (lat lon : ℚ) : gridCandidates [] lat lon = [] := by
  simp [gridCandidates]

/-- C1: whenever the exact phase has at least one candidate whose normalized
name or normalized ASCII name equals the target's normalized name and whose
distance is within the radius, `match_city` returns the population of a
nearest such candidate — for every fuzzy scorer `ratio` whatsoever, i.e.
regardless of the fuzzy score or distance of any other candidate. -/
theorem match_city_exact_wins (dist : ℚ → ℚ → ℚ → ℚ → ℚ)
    (ratio : List Char → List Char → ℚ) (uni : List Char → List Char) (radius : ℚ)
    (data : List Char → List GeoNamesRecord) (city : CityRecord)
    (h : ∃ r ∈ matchCandidates (data city.country_code) city.lat city.lon,
      nameMatches (normalize_name uni city.name) r ∧
      dist city.lat city.lon r.lat r.lon ≤ radius) :
    ∃ r ∈ matchCandidates (data city.country_code) city.lat city.lon,
      nameMatches (normalize_name uni city.name) r ∧
      dist city.lat city.lon r.lat r.lon ≤ radius ∧
      (∀ r2 ∈ matchCandidates (data city.country_code) city.lat city.lon,
        nameMatches (normalize_name uni city.name) r2 →
        dist city.lat city.lon r2.lat r2.lon ≤ radius →
        dist city.lat city.lon r.lat r.lon ≤ dist city.lat city.lon r2.lat r2.lon) ∧
      match_city dist ratio uni radius data city = some r.population := by
  rcases h with ⟨r0, hr0, hn0, hd0⟩
  by_cases hEmpty : (data city.country_code).isEmpty
  · exfalso
    have hnil : data city.country_code = [] := List.isEmpty_iff.1 hEmpty
    rw [matchCandidates, hnil, gridCandidates_nil] at hr0
    simp at hr0
  · rcases exactPhase_spec dist radius (normalize_name uni city.name) city.lat city.lon
        (matchCandidates (data city.country_code) city.lat city.lon) none with
      ⟨_, hmin⟩ | ⟨r, hr, hn, hd, _, heq, hmin⟩
    · exact absurd (hmin r0 hr0 hn0 hd0) (by rw [distImproves_none]; simp)
    · refine ⟨r, hr, hn, hd, hmin, ?_⟩
      rw [match_city_cases dist ratio uni radius data city (by simpa using hEmpty), heq]

/-- Distance stub used for concrete instances: kilometers per degree of
latitude difference (111.19 km/degree, the meridian arc approximation). -/
def latKmDist (lat1 _lon1 lat2 _lon2 : ℚ) : ℚ :=
  |lat2 - lat1| * (11119 / 100)

/-- Fuzzy scorer stub that gives every pair score zero. -/
def zeroRatio : List Char → List Char → ℚ := fun _ _ => 0

/-- Identity diacritic folder, used for concrete ASCII-only instances. -/
def idFold : List Char → List Char := fun l => l

/-- Concrete target for the C1 witness (the spec's end-to-end scenario 1). -/
def w1City : CityRecord :=
  ⟨"c1".toList, "Parys".toList, "ZA".toList, -269 / 10, 2745 / 100⟩

/-- Concrete reference entry matching `w1City` exactly, 0.01 deg away. -/
def w1Entry : GeoNamesRecord :=
  ⟨"parys".toList, "parys".toList, -26899 / 1000, 2745 / 100, 15000⟩

/-- Concrete dataset for the C1 witness. -/
def w1Data : List Char → List GeoNamesRecord := fun cc =>
  if cc = "ZA".toList then [w1Entry] else []

theorem match_city_exact_wins_witness :
    ∃ r ∈ matchCandidates (w1Data w1City.country_code) w1City.lat w1City.lon,
      nameMatches (normalize_name idFold w1City.name) r ∧
      latKmDist w1City.lat w1City.lon r.lat r.lon ≤ 30 ∧
      (∀ r2 ∈ matchCandidates (w1Data w1City.country_code) w1City.lat w1City.lon,
        nameMatches (normalize_name idFold w1City.name) r2 →
        latKmDist w1City.lat w1City.lon r2.lat r2.lon ≤ 30 →
        latKmDist w1City.lat w1City.lon r.lat r.lon ≤
          latKmDist w1City.lat w1City.lon r2.lat r2.lon) ∧
      match_city latKmDist zeroRatio idFold 30 w1Data w1City = some r.population :=
  match_city_exact_wins latKmDist zeroRatio idFold 30 w1Data w1City
    ⟨w1Entry, by
      norm_num [matchCandidates, gridCandidates, getNearbyGridKeys, gridKey, pyRound,
        gridMultiplier, w1Data, w1Entry, w1City, List.filter, List.flatMap],
      by decide, by
      norm_num [latKmDist, w1City, w1Entry]
      rw [abs_of_nonneg (by norm_num)]
      norm_num⟩

/-! ## Claim C9: the 3x3 grid neighborhood can hide an in-radius entry -/

/-- Concrete target for the C9 instance: name "b" at the origin. -/
def c9City : CityRecord := ⟨"t9".toList, "b".toList, "XX".toList, 0, 0⟩

/-- Entry in the target's own grid cell but with a different name. -/
def c9Near : GeoNamesRecord := ⟨"a".toList, "a".toList, 0, 0, 5⟩

/-- Entry with the target's exact normalized name, 0.25 degrees of latitude
away (about 27.8 km, inside the default 30 km radius) — but in grid row 2,
outside the 3x3 neighborhood rows -1..1. -/
def c9Far : GeoNamesRecord := ⟨"b".toList, "b".toList, 1 / 4, 0, 7⟩

/-- Concrete dataset for the C9 instance. -/
def c9Data : List Char → List GeoNamesRecord := fun cc =>
  if cc = "XX".toList then [c9Near, c9Far] else []

lemma pyRound_zero : pyRound (0 : ℚ) = 0 := by
  have hf : ⌊(0 : ℚ)⌋ = 0 := by norm_num
  rw [pyRound, hf]
  norm_num

lemma pyRound_five_halves : pyRound (5 / 2 : ℚ) = 2 := by
  have hf : ⌊(5 / 2 : ℚ)⌋ = 2 := by norm_num
  rw [pyRound, hf]
  norm_num

lemma c9Near_key : gridKey c9Near = (0, 0) := by
  rw [gridKey, c9Near]
  norm_num [gridMultiplier, pyRound_zero]

lemma c9Far_key : gridKey c9Far = (2, 0) := by
  rw [gridKey, c9Far]
  norm_num [gridMultiplier, pyRound_zero, pyRound_five_halves]

lemma c9_keys : getNearbyGridKeys (0 : ℚ) 0 =
    [(-1, -1), (-1, 0), (-1, 1), (0, -1), (0, 0), (0, 1), (1, -1), (1, 0), (1, 1)] := by
  rw [getNearbyGridKeys]
  norm_num [gridMultiplier, pyRound_zero, List.flatMap_cons, List.flatMap_nil]

lemma c9_gridCandidates : gridCandidates [c9Near, c9Far] (0 : ℚ) 0 = [c9Near] := by
  rw [gridCandidates, c9_keys]
  norm_num [List.filter_cons, List.filter_nil, List.flatMap_cons, List.flatMap_nil,
    c9Near_key, c9Far_key, Prod.mk.injEq, -Prod.mk_zero_zero]

lemma c9Far_key_not_nearby : gridKey c9Far ∉ getNearbyGridKeys (0 : ℚ) 0 := by
  rw [c9Far_key, c9_keys]
  decide

/-- C9: whenever the 3x3 grid neighborhood around the target's rounded
coordinates is non-empty, candidate scanning is restricted to those 9 cells,
so an entry outside them is never considered (parts 1-3); and concretely,
`match_city` returns `none` for `c9City` even though `c9Far` has the same
country and equal normalized name and lies within the 30 km radius (part 4). -/
theorem grid_neighborhood_restriction :
    (∀ (records : List GeoNamesRecord) (lat lon : ℚ),
      gridCandidates records lat lon ≠ [] →
      matchCandidates records lat lon = gridCandidates records lat lon) ∧
    (∀ (records : List GeoNamesRecord) (lat lon : ℚ) (r : GeoNamesRecord),
      r ∈ gridCandidates records lat lon → gridKey r ∈ getNearbyGridKeys lat lon) ∧
    (∀ (records : List GeoNamesRecord) (lat lon : ℚ) (r : GeoNamesRecord),
      gridCandidates records lat lon ≠ [] → r ∈ records →
      gridKey r ∉ getNearbyGridKeys lat lon →
      r ∉ matchCandidates records lat lon) ∧
    (match_city latKmDist zeroRatio idFold 30 c9Data c9City = none ∧
      c9Far ∈ c9Data c9City.country_code ∧
      nameMatches (normalize_name idFold c9City.name) c9Far ∧
      latKmDist c9City.lat c9City.lon c9Far.lat c9Far.lon ≤ 30 ∧
      c9Far ∉ matchCandidates (c9Data c9City.country_code) c9City.lat c9City.lon) := by
  have h1 : ∀ (records : List GeoNamesRecord) (lat lon : ℚ),
      gridCandidates records lat lon ≠ [] →
      matchCandidates records lat lon = gridCandidates records lat lon := by
    intro records lat lon h
    rw [matchCandidates]
    show (if (gridCandidates records lat lon).isEmpty then records
        else gridCandidates records lat lon) = gridCandidates records lat lon
    rw [if_neg (by simpa [List.isEmpty_iff] using h)]
  have h2 : ∀ (records : List GeoNamesRecord) (lat lon : ℚ) (r : GeoNamesRecord),
      r ∈ gridCandidates records lat lon → gridKey r ∈ getNearbyGridKeys lat lon :=
    fun _ _ _ _ h => (mem_gridCandidates h).2
  have h3 : ∀ (records : List GeoNamesRecord) (lat lon : ℚ) (r : GeoNamesRecord),
      gridCandidates records lat lon ≠ [] → r ∈ records →
      gridKey r ∉ getNearbyGridKeys lat lon →
      r ∉ matchCandidates records lat lon := by
    intro records lat lon r hne _ hnot hmem
    rw [h1 records lat lon hne] at hmem
    exact hnot (h2 records lat lon r hmem)
  have hdata : c9Data c9City.country_code = [c9Near, c9Far] := by simp [c9Data, c9City]
  have hmc : matchCandidates [c9Near, c9Far] (0 : ℚ) 0 = [c9Near] := by
    rw [h1 _ _ _ (by rw [c9_gridCandidates]; simp), c9_gridCandidates]
  have hq : normalize_name idFold c9City.name = ['b'] := by decide
  refine ⟨h1, h2, h3, ?_, ?_, by decide, ?_, ?_⟩
  · rw [match_city_cases latKmDist zeroRatio idFold 30 c9Data c9City (by rw [hdata]; rfl)]
    have hlat : c9City.lat = 0 := rfl
    have hlon : c9City.lon = 0 := rfl
    rw [hlat, hlon, hdata, hmc, hq]
    rw [exactPhase_cons, if_neg (by decide)]
    rw [exactPhase_nil]
    rw [fuzzyPhase_cons,
      if_pos (by norm_num [zeroRatio, FUZZY_MATCH_THRESHOLD]), fuzzyPhase_nil]
  · rw [hdata]
    simp
  · rw [c9City, c9Far]
    show |(1 / 4 : ℚ) - 0| * (11119 / 100) ≤ 30
    rw [abs_of_nonneg (by norm_num)]
    norm_num
  · have hlat : c9City.lat = 0 := rfl
    have hlon : c9City.lon = 0 := rfl
    rw [hlat, hlon, hdata, hmc]
    intro hmem
    rcases List.mem_singleton.1 hmem with h
    exact absurd (congrArg GeoNamesRecord.population h) (by decide)

theorem grid_neighborhood_restriction_witness :
    matchCandidates [c9Near, c9Far] 0 0 = gridCandidates [c9Near, c9Far] 0 0 ∧
    c9Far ∉ matchCandidates [c9Near, c9Far] 0 0 :=
  ⟨grid_neighborhood_restriction.1 [c9Near, c9Far] 0 0
      (by rw [c9_gridCandidates]; simp),
    grid_neighborhood_restriction.2.2.1 [c9Near, c9Far] 0 0 c9Far
      (by rw [c9_gridCandidates]; simp)
      (by simp)
      c9Far_key_not_nearby⟩

/-! ## Wikidata result parsing (`WikidataProvider._parse_result`) -/

/-- One SPARQL result binding: the optional `itemLabel`/`pop`/`coord` string
values (a `none` models a missing key in the binding dictionary). -/
structure WikiBinding where
  itemLabel : Option (List Char)
  pop : Option (List Char)
  coord : Option (List Char)
deriving DecidableEq

/-- Split at the first occurrence of `sep`: `some (pre, post)` with
`l = pre ++ sep ++ post` and `pre` shortest, `none` when `sep` does not occur.
Models Python substring search. -/
def breakOnSep (sep : List Char) : List Char → Option (List Char × List Char)
  | [] => none
  | c :: cs =>
    if sep.isPrefixOf (c :: cs) then some ([], (c :: cs).drop sep.length)
    else
      match breakOnSep sep cs with
      | none => none
      | some (pre, post) => some (c :: pre, post)

/-- Model of `s.split(sep)[1]`: the segment strictly between the first
occurrence of `sep` and the following occurrence (or the end of the string);
`none` when `sep` does not occur, modelling the `"Point(" not in coord_str`
guard of `_parse_result`. -/
def afterFirstSep (sep l : List Char) : Option (List Char) :=
  match breakOnSep sep l with
  | none => none
  | some (_, post) =>
    match breakOnSep sep post with
    | none => some post
    | some (pre2, _) => some pre2

/-- Model of `s.split(sep)[0]`: the prefix before the first occurrence of
`sep`, or the whole string when `sep` does not occur. -/
def beforeFirstSep (sep l : List Char) : List Char :=
  match breakOnSep sep l with
  | none => l
  | some (pre, _) => pre

/-- Coordinate extraction of `_parse_result` (lines 499-510):
`coord_str.split("Point(")[1].split(")")[0].strip().split()` must yield
exactly the two tokens `lon_str, lat_str`; any failure (missing `"Point("`,
wrong token count) models the guarded `continue`. -/
def extractCoord (coordStr : List Char) : Option (List Char × List Char) :=
  match afterFirstSep "Point(".toList coordStr with
  | none => none
  | some second =>
    match splitWs (pyStrip (beforeFirstSep ")".toList second)) [] with
    | [lonStr, latStr] => some (lonStr, latStr)
    | _ => none

/-- The per-binding screening of `_parse_result` (lines 483-517): extract the
label, reject missing/empty/unparsable/non-positive population, reject
unparsable coordinates, compute the fuzzy score and the distance, and reject
candidates beyond the radius.  Returns `(score, distance, population)` for a
surviving candidate; `none` models `continue`. -/
def candidateInfo (ratio : List Char → List Char → ℚ) (uni : List Char → List Char)
    (parseNum : List Char → Option ℤ) (parseFloat : List Char → Option ℚ)
    (dist : ℚ → ℚ → ℚ → ℚ → ℚ) (radius : ℚ) (city : CityRecord) (b : WikiBinding) :
    Option (ℚ × ℚ × ℤ) :=
  let label := b.itemLabel.getD []
  match b.pop with
  | none => none
  | some popStr =>
    if popStr = [] then none
    else
      match parseNum popStr with
      | none => none
      | some population =>
        if population ≤ 0 then none
        else
          match extractCoord (b.coord.getD []) with
          | none => none
          | some (lonStr, latStr) =>
            match parseFloat latStr, parseFloat lonStr with
            | some result_lat, some result_lon =>
              if radius < dist city.lat city.lon result_lat result_lon then none
              else some (ratio (normalize_name uni city.name) (normalize_name uni label),
                dist city.lat city.lon result_lat result_lon, population)
            | _, _ => none

/-- The best-candidate loop of `_parse_result` (lines 520-523) over the
surviving `(score, distance, population)` triples: replace the running best on
strictly higher score, or on equal score and strictly smaller distance (the
initial state is `best_pop = None`, `best_score = 0`, `best_dist = inf`). -/
def selectBest : List (ℚ × ℚ × ℤ) → Option ℤ → ℚ → Option ℚ → Option ℤ × ℚ
  | [], bestPop, bestScore, _ => (bestPop, bestScore)
  | c :: rest, bestPop, bestScore, bestDist =>
    if bestScore < c.1 ∨ (c.1 = bestScore ∧ distLtOpt c.2.1 bestDist) then
      selectBest rest (some c.2.2) c.1 (some c.2.1)
    else selectBest rest bestPop bestScore bestDist

/-- Model of `WikidataProvider._parse_result` (lines 475-529): screen every
binding, keep the best surviving candidate, and return its population only
when the best score reaches `WIKIDATA_MATCH_THRESHOLD`. -/
def parse_result (ratio : List Char → List Char → ℚ) (uni : List Char → List Char)
    (parseNum : List Char → Option ℤ) (parseFloat : List Char → Option ℚ)
    (dist : ℚ → ℚ → ℚ → ℚ → ℚ) (radius : ℚ) (city : CityRecord)
    (bindings : List WikiBinding) : Option ℤ :=
  match selectBest
      (bindings.filterMap (candidateInfo ratio uni parseNum parseFloat dist radius city))
      none 0 none with
  | (some p, bestScore) =>
    if WIKIDATA_MATCH_THRESHOLD ≤ bestScore then some p else none
  | (none, _) => none

lemma selectBest_nil (bp : Option ℤ) (bs : ℚ) (bd : Option ℚ) :
    selectBest [] bp bs bd = (bp, bs) := rfl

lemma selectBest_cons (c : ℚ × ℚ × ℤ) (rest : List (ℚ × ℚ × ℤ)) (bp : Option ℤ) (bs : ℚ)
    (bd : Option ℚ) :
    selectBest (c :: rest) bp bs bd =
      if bs < c.1 ∨ (c.1 = bs ∧ distLtOpt c.2.1 bd) then
        selectBest rest (some c.2.2) c.1 (some c.2.1)
      else selectBest rest bp bs bd := rfl

/-- Invariants of the best-candidate loop: the final best score dominates the
initial score and every scanned score, and the final best population is either
the initial one (with unchanged score) or that of a scanned candidate whose
score is the final best score. -/
lemma selectBest_spec :
    ∀ (l : List (ℚ × ℚ × ℤ)) (bp : Option ℤ) (bs : ℚ) (bd : Option ℚ),
      bs ≤ (selectBest l bp bs bd).2 ∧
      (∀ c ∈ l, c.1 ≤ (selectBest l bp bs bd).2) ∧
      ((selectBest l bp bs bd).1 = bp ∧ (selectBest l bp bs bd).2 = bs ∨
        ∃ c ∈ l, (selectBest l bp bs bd).1 = some c.2.2 ∧
          (selectBest l bp bs bd).2 = c.1) := by
  intro l
  induction l with
  | nil => exact fun bp bs bd => ⟨le_refl _, by simp, Or.inl ⟨rfl, rfl⟩⟩
  | cons c rest ih =>
    intro bp bs bd
    rw [selectBest_cons]
    split
    · next hcond =>
      rcases ih (some c.2.2) c.1 (some c.2.1) with ⟨hle, hall, hbest⟩
      have hbs : bs ≤ c.1 := by
        rcases hcond with h | h
        · exact le_of_lt h
        · exact le_of_eq h.1.symm
      refine ⟨le_trans hbs hle, ?_, ?_⟩
      · intro c2 hc2
        rcases List.mem_cons.1 hc2 with rfl | hc2
        · exact hle
        · exact hall c2 hc2
      · rcases hbest with ⟨h1, h2⟩ | ⟨c2, hc2, h1, h2⟩
        · exact Or.inr ⟨c, List.mem_cons_self _ _, h1, h2⟩
        · exact Or.inr ⟨c2, List.mem_cons_of_mem _ hc2, h1, h2⟩
    · next hcond =>
      rcases ih bp bs bd with ⟨hle, hall, hbest⟩
      refine ⟨hle, ?_, ?_⟩
      · intro c2 hc2
        rcases List.mem_cons.1 hc2 with rfl | hc2
        · have : ¬bs < c2.1 := fun h => hcond (Or.inl h)
          exact le_trans (not_lt.1 this) hle
        · exact hall c2 hc2
      · rcases hbest with ⟨h1, h2⟩ | ⟨c2, hc2, h1, h2⟩
        · exact Or.inl ⟨h1, h2⟩
        · exact Or.inr ⟨c2, List.mem_cons_of_mem _ hc2, h1, h2⟩

/-- A surviving candidate is within the radius and has positive population. -/
lemma candidateInfo_props {ratio : List Char → List Char → ℚ} {uni : List Char → List Char}
    {parseNum : List Char → Option ℤ} {parseFloat : List Char → Option ℚ}
    {dist : ℚ → ℚ → ℚ → ℚ → ℚ} {radius : ℚ} {city : CityRecord} {b : WikiBinding}
    {s d : ℚ} {p : ℤ}
    (h : candidateInfo ratio uni parseNum parseFloat dist radius city b = some (s, d, p)) :
    d ≤ radius ∧ 0 < p := by
  simp only [candidateInfo] at h
  split at h
  · exact absurd h (by simp)
  · split at h
    · exact absurd h (by simp)
    · split at h
      · exact absurd h (by simp)
      · next population hpop =>
        split at h
        · exact absurd h (by simp)
        · next hppos =>
          split at h
          · exact absurd h (by simp)
          · split at h
            · split at h
              · exact absurd h (by simp)
              · next hrad =>
                simp only [Option.some.injEq, Prod.mk.injEq] at h
                rcases h with ⟨_, hd, hp⟩
                refine ⟨hd ▸ not_lt.1 hrad, hp ▸ lt_of_not_le hppos⟩
            · exact absurd h (by simp)

/-- Soundness of `parse_result`: a returned population belongs to a surviving
candidate whose score is maximal among all surviving candidates and reaches
`WIKIDATA_MATCH_THRESHOLD`. -/
lemma parse_result_sound (ratio : List Char → List Char → ℚ) (uni : List Char → List Char)
    (parseNum : List Char → Option ℤ) (parseFloat : List Char → Option ℚ)
    (dist : ℚ → ℚ → ℚ → ℚ → ℚ) (radius : ℚ) (city : CityRecord)
    (bindings : List WikiBinding) (p : ℤ)
    (h : parse_result ratio uni parseNum parseFloat dist radius city bindings = some p) :
    ∃ c ∈ bindings.filterMap (candidateInfo ratio uni parseNum parseFloat dist radius city),
      c.2.2 = p ∧ WIKIDATA_MATCH_THRESHOLD ≤ c.1 ∧
      ∀ c2 ∈ bindings.filterMap (candidateInfo ratio uni parseNum parseFloat dist radius city),
        c2.1 ≤ c.1 := by
  rw [parse_result] at h
  rcases selectBest_spec
      (bindings.filterMap (candidateInfo ratio uni parseNum parseFloat dist radius city))
      none 0 none with ⟨_, hall, hbest⟩
  rcases hres : selectBest
      (bindings.filterMap (candidateInfo ratio uni parseNum parseFloat dist radius city))
      none 0 none with ⟨rp, rs⟩
  rw [hres] at h hall hbest
  cases rp with
  | none => exact absurd h (by simp)
  | some p0 =>
    simp only at h
    split at h
    · next hth =>
      simp only [Option.some.injEq] at h
      subst h
      rcases hbest with ⟨h1, _⟩ | ⟨c, hc, h1, h2⟩
      · exact absurd h1 (by simp)
      · simp only [Option.some.injEq] at h1
        exact ⟨c, hc, h1.symm, by rw [← h2]; exact hth, fun c2 hc2 => by
          rw [← h2]; exact hall c2 hc2⟩
    · exact absurd h (by simp)

/-- When every surviving candidate scores below the threshold, `parse_result`
returns `none`. -/
lemma parse_result_below_threshold (ratio : List Char → List Char → ℚ)
    (uni : List Char → List Char) (parseNum : List Char → Option ℤ)
    (parseFloat : List Char → Option ℚ) (dist : ℚ → ℚ → ℚ → ℚ → ℚ) (radius : ℚ)
    (city : CityRecord) (bindings : List WikiBinding)
    (h : ∀ c ∈ bindings.filterMap (candidateInfo ratio uni parseNum parseFloat dist radius city),
      c.1 < WIKIDATA_MATCH_THRESHOLD) :
    parse_result ratio uni parseNum parseFloat dist radius city bindings = none := by
  rw [parse_result]
  rcases selectBest_spec
      (bindings.filterMap (candidateInfo ratio uni parseNum parseFloat dist radius city))
      none 0 none with ⟨_, _, hbest⟩
  rcases hres : selectBest
      (bindings.filterMap (candidateInfo ratio uni parseNum parseFloat dist radius city))
      none 0 none with ⟨rp, rs⟩
  rw [hres] at hbest
  cases rp with
  | none => rfl
  | some p0 =>
    simp only
    rcases hbest with ⟨h1, _⟩ | ⟨c, hc, _, h2⟩
    · exact absurd h1 (by simp)
    · rw [if_neg]
      have h2a : rs = c.1 := h2
      rw [h2a]
      exact not_le.2 (h c hc)

/-! ## Claims C3 and C2 -/

/-- C3: the remote matcher returns a population only when the winning
candidate — the maximal-score survivor of the rejection steps (missing, empty,
unparsable or non-positive population; unparsable coordinates; distance beyond
the radius) — reaches `WIKIDATA_MATCH_THRESHOLD` (92); otherwise it returns
`none` even if that candidate is the best available. -/
theorem wikidata_strict_threshold (ratio : List Char → List Char → ℚ)
    (uni : List Char → List Char) (parseNum : List Char → Option ℤ)
    (parseFloat : List Char → Option ℚ) (dist : ℚ → ℚ → ℚ → ℚ → ℚ) (radius : ℚ)
    (city : CityRecord) (bindings : List WikiBinding) :
    (∀ p : ℤ, parse_result ratio uni parseNum parseFloat dist radius city bindings = some p →
      ∃ c ∈ bindings.filterMap (candidateInfo ratio uni parseNum parseFloat dist radius city),
        c.2.2 = p ∧ WIKIDATA_MATCH_THRESHOLD ≤ c.1 ∧ c.2.1 ≤ radius ∧ 0 < c.2.2 ∧
        ∀ c2 ∈ bindings.filterMap (candidateInfo ratio uni parseNum parseFloat dist radius city),
          c2.1 ≤ c.1) ∧
    ((∀ c ∈ bindings.filterMap (candidateInfo ratio uni parseNum parseFloat dist radius city),
        c.1 < WIKIDATA_MATCH_THRESHOLD) →
      parse_result ratio uni parseNum parseFloat dist radius city bindings = none) := by
  constructor
  · intro p h
    rcases parse_result_sound ratio uni parseNum parseFloat dist radius city bindings p h with
      ⟨c, hc, h1, h2, h3⟩
    rcases c with ⟨s, d, pp⟩
    rcases List.mem_filterMap.1 hc with ⟨b, _, hcb⟩
    rcases candidateInfo_props hcb with ⟨hrad, hpos⟩
    exact ⟨⟨s, d, pp⟩, hc, h1, h2, hrad, hpos, h3⟩
  · exact parse_result_below_threshold ratio uni parseNum parseFloat dist radius city bindings

/-- Constantly-1 distance stub for concrete instances. -/
def oneDist : ℚ → ℚ → ℚ → ℚ → ℚ := fun _ _ _ _ => 1

/-- Constantly-95 similarity stub for concrete instances. -/
def w3Ratio : List Char → List Char → ℚ := fun _ _ => 95

/-- Population parser stub recognizing the one value used by the instance. -/
def w3ParseNum : List Char → Option ℤ := fun s =>
  if s = "870000".toList then some 870000 else none

/-- Float parser stub recognizing the two coordinates of the instance. -/
def w3ParseFloat : List Char → Option ℚ := fun s =>
  if s = "43".toList then some 43 else if s = "5".toList then some 5 else none

/-- Concrete target for the remote-matcher instances. -/
def w3City : CityRecord := ⟨"c3".toList, "Marseille".toList, "FR".toList, 43, 5⟩

/-- Concrete SPARQL binding for the remote-matcher instances. -/
def w3Binding : WikiBinding :=
  ⟨some "Marseille".toList, some "870000".toList, some "Point(5 43)".toList⟩

lemma w3_parse_eval : parse_result w3Ratio idFold w3ParseNum w3ParseFloat oneDist 30
    w3City [w3Binding] = some 870000 := by decide

theorem wikidata_strict_threshold_witness :
    ∃ c ∈ List.filterMap
        (candidateInfo w3Ratio idFold w3ParseNum w3ParseFloat oneDist 30 w3City) [w3Binding],
      c.2.2 = 870000 ∧ WIKIDATA_MATCH_THRESHOLD ≤ c.1 ∧ c.2.1 ≤ 30 ∧ 0 < c.2.2 ∧
      ∀ c2 ∈ List.filterMap
          (candidateInfo w3Ratio idFold w3ParseNum w3ParseFloat oneDist 30 w3City) [w3Binding],
        c2.1 ≤ c.1 :=
  (wikidata_strict_threshold w3Ratio idFold w3ParseNum w3ParseFloat oneDist 30
    w3City [w3Binding]).1 870000 w3_parse_eval

/-- Concrete target for the bulk-matcher C2 instance: same coordinates as
`c9City` but carrying the name of the in-cell entry `c9Near`. -/
def w2City : CityRecord := ⟨"t2".toList, "a".toList, "XX".toList, 0, 0⟩

lemma c9_matchCandidates : matchCandidates [c9Near, c9Far] (0 : ℚ) 0 = [c9Near] := by
  rw [matchCandidates]
  show (if (gridCandidates [c9Near, c9Far] (0 : ℚ) 0).isEmpty then [c9Near, c9Far]
      else gridCandidates [c9Near, c9Far] (0 : ℚ) 0) = [c9Near]
  rw [c9_gridCandidates]
  rfl

lemma w2_match_eval : match_city oneDist zeroRatio idFold 30 c9Data w2City = some 5 := by
  have hdata : c9Data w2City.country_code = [c9Near, c9Far] := by simp [c9Data, w2City]
  rw [match_city_cases oneDist zeroRatio idFold 30 c9Data w2City (by rw [hdata]; rfl)]
  have hlat : w2City.lat = 0 := rfl
  have hlon : w2City.lon = 0 := rfl
  have hq : normalize_name idFold w2City.name = ['a'] := by decide
  rw [hlat, hlon, hdata, c9_matchCandidates, hq]
  rw [exactPhase_cons, if_pos (show nameMatches ['a'] c9Near by decide),
    if_pos ⟨by decide, rfl⟩, exactPhase_nil]
  rfl

/-- C2: neither the bulk matcher nor the remote matcher ever returns the
population of a candidate beyond the match radius: any population returned by
`match_city` belongs to a scanned candidate within the radius, and any
population returned by `parse_result` belongs to a surviving candidate whose
screened distance is within the radius — for every similarity scorer. -/
theorem no_out_of_radius_match :
    (∀ (dist : ℚ → ℚ → ℚ → ℚ → ℚ) (ratio : List Char → List Char → ℚ)
      (uni : List Char → List Char) (radius : ℚ)
      (data : List Char → List GeoNamesRecord) (city : CityRecord) (p : ℤ),
      match_city dist ratio uni radius data city = some p →
      ∃ r ∈ matchCandidates (data city.country_code) city.lat city.lon,
        r.population = p ∧ dist city.lat city.lon r.lat r.lon ≤ radius) ∧
    (∀ (ratio : List Char → List Char → ℚ) (uni : List Char → List Char)
      (parseNum : List Char → Option ℤ) (parseFloat : List Char → Option ℚ)
      (dist : ℚ → ℚ → ℚ → ℚ → ℚ) (radius : ℚ) (city : CityRecord)
      (bindings : List WikiBinding) (p : ℤ),
      parse_result ratio uni parseNum parseFloat dist radius city bindings = some p →
      ∃ b ∈ bindings, ∃ s d, candidateInfo ratio uni parseNum parseFloat dist radius city b =
        some (s, d, p) ∧ d ≤ radius) := by
  constructor
  · exact match_city_sound
  · intro ratio uni parseNum parseFloat dist radius city bindings p h
    rcases parse_result_sound ratio uni parseNum parseFloat dist radius city bindings p h with
      ⟨c, hc, h1, _, _⟩
    rcases c with ⟨s, d, pp⟩
    rcases List.mem_filterMap.1 hc with ⟨b, hb, hcb⟩
    rcases candidateInfo_props hcb with ⟨hrad, _⟩
    have hpp : pp = p := h1
    exact ⟨b, hb, s, d, by rw [← hpp]; exact hcb, hrad⟩

theorem no_out_of_radius_match_witness :
    (∃ r ∈ matchCandidates (c9Data w2City.country_code) w2City.lat w2City.lon,
      r.population = 5 ∧ oneDist w2City.lat w2City.lon r.lat r.lon ≤ 30) ∧
    (∃ b ∈ [w3Binding], ∃ s d,
      candidateInfo w3Ratio idFold w3ParseNum w3ParseFloat oneDist 30 w3City b =
        some (s, d, 870000) ∧ d ≤ 30) :=
  ⟨no_out_of_radius_match.1 oneDist zeroRatio idFold 30 c9Data w2City 5 w2_match_eval,
    no_out_of_radius_match.2 w3Ratio idFold w3ParseNum w3ParseFloat oneDist 30 w3City
      [w3Binding] 870000 w3_parse_eval⟩

/-! ## Bulk-dataset row parsing (`GeoNamesProvider._parse_line`) and claim C4 -/

/-- Model of Python `line.rstrip("\n")`. -/
def rstripNewline (l : List Char) : List Char :=
  (l.reverse.dropWhile fun c => c = '\n').reverse

/-- Split at every occurrence of a single separator character, Python
`line.split("\t")` (empty string yields one empty piece). -/
def splitOnChar (sep : Char) : List Char → List (List Char)
  | [] => [[]]
  | c :: cs =>
    if c = sep then [] :: splitOnChar sep cs
    else
      match splitOnChar sep cs with
      | [] => [[c]]
      | w :: ws => (c :: w) :: ws

/-- Model of `GeoNamesProvider._parse_line` (lines 267-310): split the row on
tabs, require at least 15 fields, parse coordinates (a float failure models the
swallowed exception), keep only feature class `"P"` rows whose population
parses to a positive integer (`int` failures default to 0 and are then
rejected), and build the normalized record keyed by the country code. -/
def parse_line (parseFloat : List Char → Option ℚ) (parseNum : List Char → Option ℤ)
    (uni : List Char → List Char) (line : List Char) :
    Option (List Char × GeoNamesRecord) :=
  let parts := splitOnChar '\t' (rstripNewline line)
  if parts.length < 15 then none
  else
    match parseFloat (parts.getD 4 []), parseFloat (parts.getD 5 []) with
    | some lat, some lon =>
      if parts.getD 6 [] ≠ "P".toList then none
      else
        let population := (parseNum (parts.getD 14 [])).getD 0
        if population ≤ 0 then none
        else some (parts.getD 8 [],
          ⟨normalize_name uni (parts.getD 1 []), normalize_name uni (parts.getD 2 []),
            lat, lon, population⟩)
    | _, _ => none

/-- C4: every record retained by the row parser has strictly positive
population, and consequently — for any dataset all of whose records have
positive population — the bulk matcher returns `none` or a population
strictly greater than 0. -/
theorem positive_population_invariant :
    (∀ (parseFloat : List Char → Option ℚ) (parseNum : List Char → Option ℤ)
      (uni : List Char → List Char) (line cc : List Char) (rec : GeoNamesRecord),
      parse_line parseFloat parseNum uni line = some (cc, rec) → 0 < rec.population) ∧
    (∀ (dist : ℚ → ℚ → ℚ → ℚ → ℚ) (ratio : List Char → List Char → ℚ)
      (uni : List Char → List Char) (radius : ℚ)
      (data : List Char → List GeoNamesRecord) (city : CityRecord) (p : ℤ),
      (∀ cc r, r ∈ data cc → 0 < r.population) →
      match_city dist ratio uni radius data city = some p → 0 < p) := by
  constructor
  · intro parseFloat parseNum uni line cc rec h
    simp only [parse_line] at h
    split at h
    · exact absurd h (by simp)
    · split at h
      · split at h
        · exact absurd h (by simp)
        · split at h
          · exact absurd h (by simp)
          · next hpos =>
            simp only [Option.some.injEq, Prod.mk.injEq] at h
            rcases h with ⟨_, hrec⟩
            rw [← hrec]
            exact lt_of_not_le hpos
      · exact absurd h (by simp)
  · intro dist ratio uni radius data city p hpos h
    rcases match_city_sound dist ratio uni radius data city p h with ⟨r, hr, hp, _⟩
    rw [← hp]
    exact hpos city.country_code r (mem_matchCandidates hr)

/-- Float parser stub for the C4 parse witness. -/
def w4ParseFloat : List Char → Option ℚ := fun s =>
  if s = "1".toList then some 1 else if s = "2".toList then some 2 else none

/-- Population parser stub for the C4 parse witness. -/
def w4ParseNum : List Char → Option ℤ := fun s =>
  if s = "15000".toList then some 15000 else none

/-- A well-formed 16-field GeoNames row. -/
def w4Line : List Char :=
  "123\tParys\tParys\talt\t1\t2\tP\tfoo\tZA\tr1\tr2\tr3\tr4\tr5\t15000\tmore".toList

/-- The record parsed from `w4Line`. -/
def w4Rec : GeoNamesRecord := ⟨"parys".toList, "parys".toList, 1, 2, 15000⟩

theorem positive_population_invariant_witness :
    0 < w4Rec.population ∧ 0 < (5 : ℤ) :=
  ⟨positive_population_invariant.1 w4ParseFloat w4ParseNum idFold w4Line "ZA".toList w4Rec
      (by decide),
    positive_population_invariant.2 oneDist zeroRatio idFold 30 c9Data w2City 5
      (fun cc r hr => by
        have hd : c9Data cc = if cc = "XX".toList then [c9Near, c9Far] else [] := rfl
        rw [hd] at hr
        split at hr
        · rcases List.mem_cons.1 hr with rfl | hr2
          · decide
          · rcases List.mem_singleton.1 hr2 with rfl
            decide
        · simp at hr)
      w2_match_eval⟩

/-! ## Batched persistence (`DatabaseManager.update_populations`) and claim C5 -/

/-- State of the database connection as seen through psycopg2 with
`autocommit = False`: the durable committed rows and the in-transaction
pending rows of `public.cities` (id paired with nullable population). -/
structure PGConn where
  committed : List (List Char × Option ℤ)
  pending : List (List Char × Option ℤ)
deriving DecidableEq

/-- Model of `conn.rollback()`: discard the pending transaction. -/
def rollbackConn (conn : PGConn) : PGConn :=
  { committed := conn.committed, pending := conn.committed }

/-- The set-based update join of `update_populations` (lines 675-680):
every row whose id appears among the staged pairs receives the staged
population; other rows are untouched (a staged id that matches no row is a
no-op). -/
def applyJoin (rows : List (List Char × Option ℤ)) (pairs : List (List Char × ℤ)) :
    List (List Char × Option ℤ) :=
  rows.map fun row =>
    match pairs.lookup row.1 with
    | some p => (row.1, some p)
    | none => row

/-- Number of main-table rows matched by the join (psycopg2 `cursor.rowcount`). -/
def joinedCount (rows : List (List Char × Option ℤ)) (pairs : List (List Char × ℤ)) : ℕ :=
  (rows.filter fun row => (pairs.lookup row.1).isSome).length

/-- Model of `DatabaseManager.update_populations` (lines 642-690).  The empty
batch returns 0 before the transaction body.  The injectable failure points
`failAt = some 0 .. some 3` are the temporary-table creation, the staging
insert, the update join, and the commit; staging duplicate ids also fails (the
primary key of `tmp_city_pop`).  Any failure rolls the transaction back and
re-raises, modelled as `Except.error`; on success the join result is committed
and the row count returned. -/
def update_populations (failAt : Option ℕ) (conn : PGConn) (batch : List MatchResult) :
    PGConn × Except Unit ℕ :=
  if batch.isEmpty then (conn, Except.ok 0)
  else if failAt = some 0 then (rollbackConn conn, Except.error ())
  else if failAt = some 1 ∨
      ¬((batch.map fun m => (m.city_id, m.population)).map Prod.fst).Nodup then
    (rollbackConn conn, Except.error ())
  else if failAt = some 2 then (rollbackConn conn, Except.error ())
  else if failAt = some 3 then (rollbackConn conn, Except.error ())
  else
    ({ committed := applyJoin conn.pending (batch.map fun m => (m.city_id, m.population)),
       pending := applyJoin conn.pending (batch.map fun m => (m.city_id, m.population)) },
      Except.ok (joinedCount conn.pending (batch.map fun m => (m.city_id, m.population))))

lemma applyJoin_nil (rows : List (List Char × Option ℤ)) : applyJoin rows [] = rows := by
  induction rows with
  | nil => rfl
  | cons r rs ih =>
    show (match List.lookup r.1 ([] : List (List Char × ℤ)) with
      | some p => (r.1, some p)
      | none => r) :: applyJoin rs [] = r :: rs
    rw [ih]
    rfl

lemma joinedCount_nil (rows : List (List Char × Option ℤ)) : joinedCount rows [] = 0 := by
  induction rows with
  | nil => rfl
  | cons r rs ih =>
    show (List.filter _ (r :: rs)).length = 0
    rw [List.filter_cons]
    simp only [List.lookup_nil, Option.isSome_none, Bool.false_eq_true, if_false]
    exact ih

/-- C5: `update_populations` is all-or-nothing per batch.  Starting from a
clean transaction (`pending = committed`), every failing execution leaves the
committed state unchanged (zero rows of the batch applied), and every
successful execution commits exactly the single set-based update join of the
whole batch, returning the join's row count. -/
theorem update_populations_atomic (failAt : Option ℕ) (conn : PGConn)
    (batch : List MatchResult) (hclean : conn.pending = conn.committed) :
    (∀ e, (update_populations failAt conn batch).2 = Except.error e →
      (update_populations failAt conn batch).1.committed = conn.committed ∧
      (update_populations failAt conn batch).1.pending = conn.committed) ∧
    (∀ n, (update_populations failAt conn batch).2 = Except.ok n →
      (update_populations failAt conn batch).1.committed =
        applyJoin conn.committed (batch.map fun m => (m.city_id, m.population)) ∧
      n = joinedCount conn.committed (batch.map fun m => (m.city_id, m.population))) := by
  rw [update_populations]
  by_cases hE : batch.isEmpty
  · rw [if_pos hE]
    have hm : batch = [] := List.isEmpty_iff.1 hE
    subst hm
    refine ⟨fun e he => absurd he (by simp), fun n hn => ?_⟩
    have hn0 : Except.ok (ε := Unit) 0 = Except.ok n := hn
    simp only [Except.ok.injEq] at hn0
    subst hn0
    exact ⟨by rw [List.map_nil, applyJoin_nil], by rw [List.map_nil, joinedCount_nil]⟩
  · rw [if_neg hE]
    by_cases h0 : failAt = some 0
    · rw [if_pos h0]
      exact ⟨fun e _ => ⟨rfl, rfl⟩, fun n hn => absurd hn (by simp)⟩
    · rw [if_neg h0]
      by_cases h1 : failAt = some 1 ∨
          ¬((batch.map fun m => (m.city_id, m.population)).map Prod.fst).Nodup
      · rw [if_pos h1]
        exact ⟨fun e _ => ⟨rfl, rfl⟩, fun n hn => absurd hn (by simp)⟩
      · rw [if_neg h1]
        by_cases h2 : failAt = some 2
        · rw [if_pos h2]
          exact ⟨fun e _ => ⟨rfl, rfl⟩, fun n hn => absurd hn (by simp)⟩
        · rw [if_neg h2]
          by_cases h3 : failAt = some 3
          · rw [if_pos h3]
            exact ⟨fun e _ => ⟨rfl, rfl⟩, fun n hn => absurd hn (by simp)⟩
          · rw [if_neg h3]
            refine ⟨fun e he => absurd he (by simp), fun n hn => ?_⟩
            have hn0 : Except.ok (ε := Unit)
                (joinedCount conn.pending (batch.map fun m => (m.city_id, m.population))) =
                Except.ok n := hn
            simp only [Except.ok.injEq] at hn0
            subst hn0
            exact ⟨by rw [hclean], by rw [hclean]⟩

/-- Concrete store for the C5 witness: two rows, one missing population. -/
def w5Conn : PGConn :=
  ⟨[("x1".toList, none), ("x2".toList, some 3)], [("x1".toList, none), ("x2".toList, some 3)]⟩

/-- Concrete one-element batch for the C5 witness. -/
def w5Matches : List MatchResult := [⟨"x1".toList, 15000, "geonames".toList⟩]

theorem update_populations_atomic_witness :
    ((update_populations (some 2) w5Conn w5Matches).1.committed = w5Conn.committed ∧
      (update_populations (some 2) w5Conn w5Matches).1.pending = w5Conn.committed) ∧
    ((update_populations none w5Conn w5Matches).1.committed =
        applyJoin w5Conn.committed (w5Matches.map fun m => (m.city_id, m.population)) ∧
      1 = joinedCount w5Conn.committed (w5Matches.map fun m => (m.city_id, m.population))) :=
  ⟨(update_populations_atomic (some 2) w5Conn w5Matches rfl).1 () rfl,
    (update_populations_atomic none w5Conn w5Matches rfl).2 1 rfl⟩

/-! ## Remote querying: retry, backoff, per-target failure (claim C6) -/

/-- Kinds of exception `WikidataProvider._query` can raise: an HTTP timeout,
`raise_for_status` on an error status code, a malformed response body, or any
other exception. -/
inductive QueryError where
  | timeout
  | httpStatus (code : ℕ)
  | malformedResponse
  | other
deriving DecidableEq

/-- The transient failures named by the specification: timeouts, 5xx
responses, malformed responses. -/
def isTransientError : QueryError → Bool
  | QueryError.timeout => true
  | QueryError.httpStatus code => decide (500 ≤ code ∧ code < 600)
  | QueryError.malformedResponse => true
  | QueryError.other => false

/-- Modelled from the spec and the tenacity call in the source
(`wait_exponential(min=1, max=10)` with default multiplier 1): the wait after
failed attempt `attemptNumber` is `multiplier * 2 ^ (attemptNumber - 1)`
clamped into `[mn, mx]` (tenacity computes
`max(max(0, min), min(result, max))`). -/
def waitExponential (multiplier mn mx : ℚ) (attemptNumber : ℕ) : ℚ :=
  max (max 0 mn) (min (multiplier * 2 ^ (attemptNumber - 1)) mx)

/-- Modelled from the spec and the decorator
`@retry(stop=stop_after_attempt(3), wait=wait_exponential(min=1, max=10))` on
`_query`: the tenacity retry loop.  `f i` is the outcome of 0-based attempt
`i`; `fuel` counts the retries still allowed; tenacity's default retry
predicate retries on ANY exception.  Returns the final outcome, the number of
attempts made, and the waits performed between attempts. -/
def runRetryAux (f : ℕ → Except QueryError α) : ℕ → ℕ → Except QueryError α × ℕ × List ℚ
  | i, 0 =>
    match f i with
    | Except.ok a => (Except.ok a, i + 1, [])
    | Except.error e => (Except.error e, i + 1, [])
  | i, fuel + 1 =>
    match f i with
    | Except.ok a => (Except.ok a, i + 1, [])
    | Except.error _ =>
      let rest := runRetryAux f (i + 1) fuel
      (rest.1, rest.2.1, waitExponential 1 1 10 (i + 1) :: rest.2.2)

/-- `_query` under its decorator: first attempt plus at most 2 retries
(`stop_after_attempt(3)`). -/
def queryWithRetry (f : ℕ → Except QueryError α) : Except QueryError α × ℕ × List ℚ :=
  runRetryAux f 0 2

/-- Model of `WikidataProvider.match_cities` (lines 531-564): process the
targets in order; for each one run the retried query (`queryResults city j`
is the outcome of attempt `j`); any exception — including a failure that
persisted through all retry attempts — is caught, logged as a warning, and
the loop continues with the next city; a parsed population appends a
`MatchResult` tagged `wikidata`. -/
def match_cities (ratio : List Char → List Char → ℚ) (uni : List Char → List Char)
    (parseNum : List Char → Option ℤ) (parseFloat : List Char → Option ℚ)
    (dist : ℚ → ℚ → ℚ → ℚ → ℚ) (radius : ℚ)
    (queryResults : CityRecord → ℕ → Except QueryError (List WikiBinding))
    (cities : List CityRecord) : List MatchResult :=
  cities.filterMap fun city =>
    match (queryWithRetry (queryResults city)).1 with
    | Except.error _ => none
    | Except.ok bindings =>
      match parse_result ratio uni parseNum parseFloat dist radius city bindings with
      | some p => some ⟨city.id, p, "wikidata".toList⟩
      | none => none

lemma runRetryAux_zero (f : ℕ → Except QueryError α) (i : ℕ) :
    runRetryAux f i 0 =
      match f i with
      | Except.ok a => (Except.ok a, i + 1, [])
      | Except.error e => (Except.error e, i + 1, []) := rfl

lemma runRetryAux_succ (f : ℕ → Except QueryError α) (i fuel : ℕ) :
    runRetryAux f i (fuel + 1) =
      match f i with
      | Except.ok a => (Except.ok a, i + 1, [])
      | Except.error _ =>
        ((runRetryAux f (i + 1) fuel).1, (runRetryAux f (i + 1) fuel).2.1,
          waitExponential 1 1 10 (i + 1) :: (runRetryAux f (i + 1) fuel).2.2) := rfl

/-- Attempt oracle for the counterexample: the first attempt fails with
HTTP 404 (a client error, not a transient failure), the next succeeds. -/
def c6Oracle : ℕ → Except QueryError ℕ := fun i =>
  if i = 0 then Except.error (QueryError.httpStatus 404) else Except.ok 7

/-- C6 counterexample: the decorator passes no retry predicate, so tenacity's
default — retry on ANY exception — applies: after a non-transient HTTP 404
failure the query is attempted again (2 attempts, and the second one's result
is returned).  This refutes the claim that retries apply ONLY to transient
failures (timeouts, 5xx, malformed responses) and not to other failures. -/
theorem retry_on_nontransient_counterexample :
    isTransientError (QueryError.httpStatus 404) = false ∧
    (queryWithRetry c6Oracle).2.1 = 2 ∧
    (queryWithRetry c6Oracle).1 = Except.ok 7 :=
  ⟨rfl, rfl, rfl⟩

/-- C6 (amended): each remote query is attempted up to 3 times, with
exponential backoff (1 s doubling, clamped to [1 s, 10 s]) between attempts;
a retry follows ANY failed attempt, transient or not; after a failure on all
3 attempts the last error is surfaced, and `match_cities` turns it into "no
result for that target" and continues with the remaining targets. -/
theorem remote_retry_semantics :
    (∀ (α : Type) (f : ℕ → Except QueryError α), (queryWithRetry f).2.1 ≤ 3) ∧
    (∀ (α : Type) (f : ℕ → Except QueryError α) (i : ℕ) (a : α), i < 3 →
      (∀ j < i, ∃ e, f j = Except.error e) → f i = Except.ok a →
      queryWithRetry f = (Except.ok a, i + 1,
        (List.range i).map fun k => waitExponential 1 1 10 (k + 1))) ∧
    (∀ (α : Type) (f : ℕ → Except QueryError α),
      (∀ j < 3, ∃ e, f j = Except.error e) →
      (queryWithRetry f).1 = f 2 ∧ (queryWithRetry f).2.1 = 3 ∧
      (queryWithRetry f).2.2 = [1, 2]) ∧
    (∀ (ratio : List Char → List Char → ℚ) (uni : List Char → List Char)
      (parseNum : List Char → Option ℤ) (parseFloat : List Char → Option ℚ)
      (dist : ℚ → ℚ → ℚ → ℚ → ℚ) (radius : ℚ)
      (queryResults : CityRecord → ℕ → Except QueryError (List WikiBinding))
      (city : CityRecord) (others : List CityRecord),
      (∀ j < 3, ∃ e, queryResults city j = Except.error e) →
      match_cities ratio uni parseNum parseFloat dist radius queryResults (city :: others) =
        match_cities ratio uni parseNum parseFloat dist radius queryResults others) := by
  have hbound : ∀ (α : Type) (f : ℕ → Except QueryError α) (fuel i : ℕ),
      (runRetryAux f i fuel).2.1 ≤ i + fuel + 1 := by
    intro α f fuel
    induction fuel with
    | zero =>
      intro i
      rw [runRetryAux_zero]
      rcases hf : f i with e | a <;> simp
    | succ fuel ih =>
      intro i
      rw [runRetryAux_succ]
      rcases hf : f i with e | a
      · have := ih (i + 1)
        simp only
        omega
      · simp only
        omega
  have hallfail : ∀ (α : Type) (f : ℕ → Except QueryError α),
      (∀ j < 3, ∃ e, f j = Except.error e) →
      (queryWithRetry f).1 = f 2 ∧ (queryWithRetry f).2.1 = 3 ∧
      (queryWithRetry f).2.2 = [1, 2] := by
    intro α f hfail
    rcases hfail 0 (by omega) with ⟨e0, he0⟩
    rcases hfail 1 (by omega) with ⟨e1, he1⟩
    rcases hfail 2 (by omega) with ⟨e2, he2⟩
    refine ⟨?_, ?_, ?_⟩
    · simp only [queryWithRetry, runRetryAux_succ, runRetryAux_zero, he0, he1, he2]
    · simp only [queryWithRetry, runRetryAux_succ, runRetryAux_zero, he0, he1, he2]
    · simp only [queryWithRetry, runRetryAux_succ, runRetryAux_zero, he0, he1, he2]
      norm_num [waitExponential]
  refine ⟨?_, ?_, hallfail, ?_⟩
  · intro α f
    have := hbound α f 2 0
    simpa [queryWithRetry] using this
  · intro α f i a hi hfail hok
    interval_cases i
    · simp only [queryWithRetry, runRetryAux_succ, hok]
      simp
    · rcases hfail 0 (by omega) with ⟨e0, he0⟩
      simp only [queryWithRetry, runRetryAux_succ, runRetryAux_zero, he0, hok]
      simp [List.range_succ]
    · rcases hfail 0 (by omega) with ⟨e0, he0⟩
      rcases hfail 1 (by omega) with ⟨e1, he1⟩
      simp only [queryWithRetry, runRetryAux_succ, runRetryAux_zero, he0, he1, hok]
      simp [List.range_succ]
  · intro ratio uni parseNum parseFloat dist radius queryResults city others hfail
    rcases hallfail (List WikiBinding) (queryResults city) hfail with ⟨h1, _, _⟩
    rcases hfail 2 (by omega) with ⟨e2, he2⟩
    rw [match_cities, match_cities, List.filterMap_cons]
    rw [he2] at h1
    simp only [h1]

/-- Attempt oracle whose three attempts all time out. -/
def c6AllFail : ℕ → Except QueryError (List WikiBinding) := fun _ =>
  Except.error QueryError.timeout

/-- Per-city query oracle that always fails. -/
def c6Queries : CityRecord → ℕ → Except QueryError (List WikiBinding) := fun _ => c6AllFail

theorem remote_retry_semantics_witness :
    (queryWithRetry (fun _ => Except.ok (42 : ℕ))).2.1 ≤ 3 ∧
    queryWithRetry (fun _ => Except.ok (42 : ℕ)) = (Except.ok 42, 1, []) ∧
    (queryWithRetry c6AllFail).2.2 = [1, 2] ∧
    match_cities w3Ratio idFold w3ParseNum w3ParseFloat oneDist 30 c6Queries [w3City] =
      match_cities w3Ratio idFold w3ParseNum w3ParseFloat oneDist 30 c6Queries [] :=
  ⟨remote_retry_semantics.1 ℕ (fun _ => Except.ok 42),
    by
      have h := remote_retry_semantics.2.1 ℕ (fun _ => Except.ok 42) 0 42 (by omega)
        (fun j hj => absurd hj (by omega)) rfl
      simpa using h,
    ((remote_retry_semantics.2.2.1 (List WikiBinding) c6AllFail)
      (fun j _ => ⟨QueryError.timeout, rfl⟩)).2.2,
    remote_retry_semantics.2.2.2 w3Ratio idFold w3ParseNum w3ParseFloat oneDist 30
      c6Queries w3City [] (fun j _ => ⟨QueryError.timeout, rfl⟩)⟩

/-! ## Orchestration (`main`, lines 693-790) and claim C8 -/

/-- The `Statistics` dataclass. -/
structure Statistics where
  total_cities : ℕ
  geonames_matches : ℕ
  wikidata_matches : ℕ
  no_match : ℕ
  errors : ℕ
deriving DecidableEq

/-- Environment of one run of `main`: the fetched records, the per-city
outcome of the bulk matching step (`Except.error` models a raised exception,
caught and counted as an error with the city kept for the remote phase), the
result of the Wikidata phase, and success flags for the dataset download and
the two persistence phases. -/
structure RunEnv where
  cities : List CityRecord
  bulkOutcome : CityRecord → Except Unit (Option ℤ)
  wikidataMatch : List CityRecord → List MatchResult
  downloadOk : Bool
  persistBulkOk : Bool
  persistRemoteOk : Bool

/-- Observable outcome of a run of `main`: the final statistics, whether the
summary was printed, and whether the run ended in the fatal-error handler
(`sys.exit(1)`). -/
structure MainOutcome where
  stats : Statistics
  summaryPrinted : Bool
  fatal : Bool
deriving DecidableEq

/-- Cities counted into `stats.geonames_matches` by the bulk loop. -/
def bulkMatchedCount (env : RunEnv) : ℕ :=
  env.cities.countP fun c =>
    match env.bulkOutcome c with
    | Except.ok (some _) => true
    | _ => false

/-- Cities counted into `stats.errors` by the bulk loop. -/
def bulkErrorCount (env : RunEnv) : ℕ :=
  env.cities.countP fun c =>
    match env.bulkOutcome c with
    | Except.error _ => true
    | _ => false

/-- Cities appended to `unmatched_cities` by the bulk loop (no match, or a
caught per-record exception). -/
def bulkUnmatched (env : RunEnv) : List CityRecord :=
  env.cities.filter fun c =>
    match env.bulkOutcome c with
    | Except.ok (some _) => false
    | _ => true

/-- Model of `main`: fetch, set `stats.total_cities`, return early (without
a summary) when no cities were fetched, download the dataset (fatal on
failure), run the bulk loop, persist bulk matches (fatal on failure), run the
remote phase only when unmatched cities remain, persist its matches (fatal on
failure), set `no_match`, and print the summary. -/
def mainModel (env : RunEnv) : MainOutcome :=
  let stats0 : Statistics := ⟨env.cities.length, 0, 0, 0, 0⟩
  if env.cities.isEmpty then
    { stats := stats0, summaryPrinted := false, fatal := false }
  else if ¬env.downloadOk then
    { stats := stats0, summaryPrinted := false, fatal := true }
  else
    let stats1 : Statistics :=
      { stats0 with geonames_matches := bulkMatchedCount env, errors := bulkErrorCount env }
    if 0 < bulkMatchedCount env ∧ ¬env.persistBulkOk then
      { stats := stats1, summaryPrinted := false, fatal := true }
    else if ¬(bulkUnmatched env).isEmpty then
      let wd := env.wikidataMatch (bulkUnmatched env)
      let stats2 : Statistics :=
        { stats1 with
          wikidata_matches := wd.length,
          no_match := (bulkUnmatched env).length - wd.length }
      if ¬wd.isEmpty ∧ ¬env.persistRemoteOk then
        { stats := stats2, summaryPrinted := false, fatal := true }
      else { stats := stats2, summaryPrinted := true, fatal := false }
    else { stats := { stats1 with no_match := 0 }, summaryPrinted := true, fatal := false }

/-- A run whose fetch returns zero records. -/
def c8EmptyEnv : RunEnv :=
  ⟨[], fun _ => Except.ok none, fun _ => [], true, true, true⟩

/-- C8 counterexample: when the fetch returns zero records, `main` logs
"No cities to process" and returns from inside the `try` block BEFORE
`stats.print_summary()` — the run terminates without a fatal error and
without a statistics summary, refuting "concludes with a statistics summary
... including runs where the fetch returns zero records". -/
theorem empty_fetch_no_summary_counterexample :
    (mainModel c8EmptyEnv).fatal = false ∧
    (mainModel c8EmptyEnv).summaryPrinted = false ∧
    (mainModel c8EmptyEnv).stats.total_cities = 0 :=
  ⟨rfl, rfl, rfl⟩

/-- C8 (amended): every run that reaches its terminal state without a fatal
error yields statistics whose total equals the count of fetched records, and
concludes with a statistics summary exactly when the fetch returned at least
one record; a zero-record fetch exits early without a summary. -/
theorem run_statistics_total (env : RunEnv) (h : (mainModel env).fatal = false) :
    (mainModel env).stats.total_cities = env.cities.length ∧
    ((mainModel env).summaryPrinted = true ↔ env.cities ≠ []) := by
  simp only [mainModel] at h ⊢
  split_ifs at h ⊢ with h1 h2 h3 h4 h5
  all_goals simp_all [List.isEmpty_iff]

/-- A one-record run with a successful bulk match. -/
def c8Env : RunEnv :=
  ⟨[w2City], fun _ => Except.ok (some 5), fun _ => [], true, true, true⟩

theorem run_statistics_total_witness :
    (mainModel c8Env).stats.total_cities = c8Env.cities.length ∧
    ((mainModel c8Env).summaryPrinted = true ↔ c8Env.cities ≠ []) :=
  run_statistics_total c8Env rfl

/-! ## Rate limiting (`WikidataProvider.__init__` / `_rate_limit`, claim C10) -/

/-- Model of line 426: `self.delay = 1.0 / max(max_qps, 0.1)`. -/
def wikidataDelay (max_qps : ℚ) : ℚ := 1 / max max_qps (1 / 10)

/-- Model of `_rate_limit` (lines 429-437): the sleep performed on one call
when `elapsed = now - last` time has passed since the previous request. -/
def rateLimitWait (delay now last : ℚ) : ℚ :=
  if now - last < delay then delay - (now - last) else 0

/-- C10: the delay denominator `max(max_qps, 0.1)` is always strictly
positive (no division by zero for any configured rate); every rate at or
below 0.1 queries per second — including zero and negative values — yields a
delay of exactly 10 seconds; the delay itself is positive; and under
monotone clock readings `_rate_limit` never sleeps longer than the delay. -/
theorem rate_limit_delay_bounded :
    (∀ max_qps : ℚ, 0 < max max_qps (1 / 10)) ∧
    (∀ max_qps : ℚ, max_qps ≤ 1 / 10 → wikidataDelay max_qps = 10) ∧
    (∀ max_qps : ℚ, 0 < wikidataDelay max_qps) ∧
    (∀ max_qps now last : ℚ, last ≤ now →
      rateLimitWait (wikidataDelay max_qps) now last ≤ wikidataDelay max_qps) := by
  have hpos : ∀ max_qps : ℚ, 0 < max max_qps (1 / 10) := fun max_qps =>
    lt_of_lt_of_le (by norm_num) (le_max_right max_qps (1 / 10))
  have hdelay : ∀ max_qps : ℚ, 0 < wikidataDelay max_qps := fun max_qps =>
    div_pos one_pos (hpos max_qps)
  refine ⟨hpos, ?_, hdelay, ?_⟩
  · intro max_qps hle
    rw [wikidataDelay, max_eq_right hle]
    norm_num
  · intro max_qps now last hle
    rw [rateLimitWait]
    split_ifs with hw
    · have h0 : 0 ≤ now - last := sub_nonneg.2 hle
      linarith
    · exact le_of_lt (hdelay max_qps)

theorem rate_limit_delay_bounded_witness :
    wikidataDelay 0 = 10 ∧
    rateLimitWait (wikidataDelay 2) 5 5 ≤ wikidataDelay 2 :=
  ⟨rate_limit_delay_bounded.2.1 0 (by norm_num),
    rate_limit_delay_bounded.2.2.2 2 5 5 (le_refl 5)⟩

end PopEnrich
